import Mathlib

/-!
Verification development for the Mailuminati Guardian engine (Go sources:
`mi_guardian/analysis.go` plus the v0.5.1 handler/config/type files).  The
Go code is shallowly embedded: pure helpers become Lean functions over
`String`/`List Char`, the Redis store becomes a record of typed maps with
explicit expiry stamps, the HTTP handlers become state-passing functions,
and the external collaborators (the glaslos/tlsh library, the oracle HTTP
service, SHA-1) are abstracted as parameters.  Go `map` iteration order is
nondeterministic; it is modelled by an explicit reordering parameter `ord`
applied wherever a handler iterates over a map of candidates or matched
keys.  Go `len` on strings counts bytes; the model counts characters, which
agrees on the ASCII inputs reasoned about here.  Definitions suffixed
`Claimed` are spelled from the specification's words, for comparison with
the code-derived definitions; everything else is translated from the
source.
-/

namespace Guardian

/-! ## String utilities shared by the embedding -/

/-- Characters accepted by Go's `unicode.IsSpace` in the Latin-1 range (the
inputs reasoned about only use these). -/
def goIsSpace (c : Char) : Bool :=
  c = ' ' ∨ c = '\t' ∨ c = '\n' ∨ c = '\x0b' ∨ c = '\x0c' ∨ c = '\r' ∨
  c = '\x85' ∨ c = '\xa0'

/-- Characters matched by the RE2 class `\s` (`[\t\n\f\r ]`). -/
def reSpace (c : Char) : Bool :=
  c = '\t' ∨ c = '\n' ∨ c = '\x0c' ∨ c = '\r' ∨ c = ' '

/-- Go `strings.TrimSpace` on the character model above. -/
def trimSpace (cs : List Char) : List Char :=
  ((cs.dropWhile goIsSpace).reverse.dropWhile goIsSpace).reverse

/-- Go `strings.ToLower` on ASCII letters. -/
def goToLower (c : Char) : Char :=
  if 'A' ≤ c ∧ c ≤ 'Z' then Char.ofNat (c.toNat + 32) else c

/-- Go `strings.ToUpper` on ASCII letters. -/
def goToUpper (c : Char) : Char :=
  if 'a' ≤ c ∧ c ≤ 'z' then Char.ofNat (c.toNat - 32) else c

/-- Go `strings.TrimPrefix(d, "T1")` as used by the distance functions. -/
def trimT1 (s : String) : String :=
  if "T1".toList.isPrefixOf s.toList then (s.toList.drop 2).asString else s

/-- Case-insensitive literal match (`pat` is given in lower case), as RE2
performs for literals under the `(?i)` flag on ASCII input. -/
def matchesCI : List Char → List Char → Bool
  | [], _ => true
  | _ :: _, [] => false
  | p :: ps, c :: cs => goToLower c = p ∧ matchesCI ps cs

/-- Go `strings.Repeat`. -/
def strRepeat (s : String) : Nat → String
  | 0 => ""
  | n + 1 => s ++ strRepeat s n

/-- The part of `cs` after the first occurrence of `ch`; `cs` itself when
`ch` does not occur (Go's `strings.Index` returning -1 leaves the string
unchanged). -/
def afterFirst (ch : Char) (cs : List Char) : List Char :=
  if ch ∈ cs then (cs.dropWhile (fun c => c ≠ ch)).drop 1 else cs

/-- The part of `cs` before the first occurrence of `ch`; `cs` itself when
`ch` does not occur. -/
def beforeFirst (ch : Char) (cs : List Char) : List Char :=
  cs.takeWhile (fun c => c ≠ ch)

/-! ## Fingerprint engine (analysis.go)

`extractBands_6_3` (analysis.go lines 213-232): header length 8, body
length 64, window 6, stride 3.  The Go loop
`for pos := 0; pos+window <= bodyLen; pos += stride` is the recursion
below; the fuel argument (64, an upper bound on the loop's iteration count)
only makes the recursion structural. -/

def extractBandsAux (core : List Char) : Nat → Nat → Nat → List String
  | 0, _, _ => []
  | fuel + 1, pos, idx =>
    if pos + 6 ≤ 64 then
      (toString idx ++ ":" ++ ((core.drop pos).take 6).asString)
        :: extractBandsAux core fuel (pos + 3) (idx + 1)
    else []

/-- `extractBands_6_3` from analysis.go: if `len(sig) < 72` return the empty
list, else take `core := sig[8 : 72]` and emit windows of width 6 at stride
3, each prefixed with its 1-based index. -/
def extractBands_6_3 (sig : String) : List String :=
  let cs := sig.toList
  if cs.length < 8 + 64 then []
  else extractBandsAux ((cs.drop 8).take 64) 64 0 1

/-- `getConfidenceForMatch` (analysis.go lines 88-98), with `float64`
modelled as `ℚ` (every comparison and the refuted boundary value are exact,
so rounding plays no role).  Returns 0.0 when `distance >= threshold`, else
`1.0 - (distance/threshold)*0.5` floored at 0.5. -/
def getConfidenceForMatch (distance threshold : Nat) : ℚ :=
  if distance ≥ threshold then 0
  else
    let confidence : ℚ := 1 - ((distance : ℚ) / (threshold : ℚ)) * (1/2)
    if confidence < 1/2 then 1/2 else confidence

/-! ## Normalizer (analysis.go lines 185-211)

Each Go `regexp.ReplaceAllString` call is embedded as a scanner with RE2's
leftmost-first, non-overlapping semantics: `replaceAll m s` walks `s`, and
wherever `m` reports a match starting at the current position it emits the
replacement and continues after the match, otherwise it keeps the current
character.  Every pattern used by the normalizer matches at least one
character, so fuel `s.length` is exact. -/

def replaceAllAux (m : List Char → Option (List Char × List Char)) :
    Nat → List Char → List Char
  | 0, s => s
  | _ + 1, [] => []
  | fuel + 1, c :: rest =>
    match m (c :: rest) with
    | some (rep, rest') => rep ++ replaceAllAux m fuel rest'
    | none => c :: replaceAllAux m fuel rest

def replaceAll (m : List Char → Option (List Char × List Char))
    (s : List Char) : List Char :=
  replaceAllAux m s.length s

/-- `FindAllString` analogue: collect every non-overlapping leftmost match. -/
def findAllAux (m : List Char → Option (List Char × List Char)) :
    Nat → List Char → List (List Char)
  | 0, _ => []
  | _ + 1, [] => []
  | fuel + 1, c :: rest =>
    match m (c :: rest) with
    | some (matched, rest') => matched :: findAllAux m fuel rest'
    | none => findAllAux m fuel rest

def isHexDigitCh (c : Char) : Bool :=
  ('0' ≤ c ∧ c ≤ '9') ∨ ('a' ≤ c ∧ c ≤ 'f') ∨ ('A' ≤ c ∧ c ≤ 'F')

def isDigitCh (c : Char) : Bool := '0' ≤ c ∧ c ≤ '9'

/-- `[0-9a-fA-F]{8,}` replaced by `****`: a maximal run of at least 8 hex
digits starting here. -/
def hexMatch (s : List Char) : Option (List Char × List Char) :=
  let run := s.takeWhile isHexDigitCh
  if 8 ≤ run.length then some ("****".toList, s.drop run.length) else none

/-- `\d{6,}` replaced by `****`. -/
def digitMatch (s : List Char) : Option (List Char × List Char) :=
  let run := s.takeWhile isDigitCh
  if 6 ≤ run.length then some ("****".toList, s.drop run.length) else none

/-- `[ \t]+` replaced by a single space. -/
def spacesMatch (s : List Char) : Option (List Char × List Char) :=
  let run := s.takeWhile (fun c => c = ' ' ∨ c = '\t')
  if 1 ≤ run.length then some ([' '], s.drop run.length) else none

/-- `\r?\n{2,}` replaced by `"\n\n"`. -/
def newlinesMatch (s : List Char) : Option (List Char × List Char) :=
  match s with
  | '\r' :: rest =>
    let run := rest.takeWhile (fun c => c = '\n')
    if 2 ≤ run.length then some ("\n\n".toList, rest.drop run.length) else none
  | '\n' :: _ =>
    let run := s.takeWhile (fun c => c = '\n')
    if 2 ≤ run.length then some ("\n\n".toList, s.drop run.length) else none
  | _ => none

/-- `(?i)\s*style\s*=\s*"[^"]*"` removed.  `\s*` is greedy; since no
whitespace character can begin `style`, taking the maximal whitespace run is
exactly RE2's behaviour. -/
def styleMatch (s : List Char) : Option (List Char × List Char) :=
  let t1 := s.drop (s.takeWhile reSpace).length
  if matchesCI "style".toList t1 then
    let t2 := t1.drop 5
    let t3 := t2.drop (t2.takeWhile reSpace).length
    match t3 with
    | '=' :: t4 =>
      let t5 := t4.drop (t4.takeWhile reSpace).length
      match t5 with
      | '"' :: t6 =>
        let v := t6.takeWhile (fun c => c ≠ '"')
        match t6.drop v.length with
        | '"' :: rest => some ([], rest)
        | _ => none
      | _ => none
    | _ => none
  else none

/-- Name alternatives of the body-tracker pattern
`(utm_[^=&]+|gclid|fbclid|mc_eid|mc_cid)` under `(?i)`; returns the rest of
the input after the name.  The literals are pairwise non-overlapping, so
trying them in RE2's left-to-right order is exact. -/
def trackerAlt (t : List Char) : Option (List Char) :=
  if matchesCI "utm_".toList t then
    let t1 := t.drop 4
    let run := t1.takeWhile (fun c => ¬(c = '=' ∨ c = '&'))
    if 1 ≤ run.length then some (t1.drop run.length) else none
  else if matchesCI "gclid".toList t then some (t.drop 5)
  else if matchesCI "fbclid".toList t then some (t.drop 6)
  else if matchesCI "mc_eid".toList t then some (t.drop 6)
  else if matchesCI "mc_cid".toList t then some (t.drop 6)
  else none

/-- `(?i)([?&])(utm_[^=&]+|gclid|fbclid|mc_eid|mc_cid)=[^&\s"'>]+` replaced
by the captured `?` or `&`. -/
def trackersMatch (s : List Char) : Option (List Char × List Char) :=
  match s with
  | q :: t =>
    if q = '?' ∨ q = '&' then
      match trackerAlt t with
      | some t1 =>
        match t1 with
        | '=' :: t2 =>
          let v := t2.takeWhile
            (fun c => ¬(c = '&' ∨ reSpace c ∨ c = '"' ∨ c = '\'' ∨ c = '>'))
          if 1 ≤ v.length then some ([q], t2.drop v.length) else none
        | _ => none
      | none => none
    else none
  | [] => none

/-- Tail of the img pattern after `src="`: `[^"]*"` then the lazy
`([^>]*?)>`; returns the second capture group and the rest after `>`. -/
def imgTail (t : List Char) : Option (List Char × List Char) :=
  let v := t.takeWhile (fun c => c ≠ '"')
  match t.drop v.length with
  | '"' :: t1 =>
    let g2 := t1.takeWhile (fun c => c ≠ '>')
    match t1.drop g2.length with
    | '>' :: rest => some (g2, rest)
    | _ => none
  | _ => none

/-- The lazy group `([^>]*?)` before `src="`: the shortest run of non-`>`
characters after which `src="` and the rest of the pattern match.  `acc`
accumulates the group in reverse. -/
def imgFindSrc : List Char → List Char → Option (List Char × List Char × List Char)
  | _, [] => none
  | acc, c :: cs =>
    if c = '>' then none
    else if matchesCI "src=\"".toList (c :: cs) then
      match imgTail ((c :: cs).drop 5) with
      | some (g2, rest) => some (acc.reverse, g2, rest)
      | none => imgFindSrc (c :: acc) cs
    else imgFindSrc (c :: acc) cs

/-- `(?i)<img([^>]*?)src="[^"]*"([^>]*?)>` replaced by
`<img${1}src="imgurl"${2}>`. -/
def imgMatch (s : List Char) : Option (List Char × List Char) :=
  if matchesCI "<img".toList s then
    match imgFindSrc [] (s.drop 4) with
    | some (g1, g2, rest) =>
      some ("<img".toList ++ g1 ++ "src=\"imgurl\"".toList ++ g2 ++ ['>'], rest)
    | none => none
  else none

/-- `normalizeEmailBody` (analysis.go lines 185-211): concatenate
`text + "\n\n" + html`, trim, then apply the seven rewriting passes in the
source's order, lower-casing between the tracker pass and the whitespace
passes. -/
def normalizeEmailBody (text html : String) : String :=
  let body := (text ++ "\n\n" ++ html).toList
  let body := trimSpace body
  let body := replaceAll imgMatch body
  let body := replaceAll hexMatch body
  let body := replaceAll digitMatch body
  let body := replaceAll styleMatch body
  let body := replaceAll trackersMatch body
  let body := body.map goToLower
  let body := replaceAll spacesMatch body
  let body := replaceAll newlinesMatch body
  body.asString

/-! ## URL extraction (analysis.go lines 157-183) -/

def urlBodyChar (c : Char) : Bool :=
  ¬(reSpace c ∨ c = '"' ∨ c = '\'' ∨ c = '<' ∨ c = '>')

/-- `https?://[^\s"'<>]+` (case sensitive); the greedy `s?` tries `https`
first. -/
def urlMatch (s : List Char) : Option (List Char × List Char) :=
  if "https://".toList.isPrefixOf s then
    let t := s.drop 8
    let run := t.takeWhile urlBodyChar
    if 1 ≤ run.length then some ("https://".toList ++ run, t.drop run.length) else none
  else if "http://".toList.isPrefixOf s then
    let t := s.drop 7
    let run := t.takeWhile urlBodyChar
    if 1 ≤ run.length then some ("http://".toList ++ run, t.drop run.length) else none
  else none

/-- Name alternatives of the per-URL tracker pattern
`(utm_[^=&]+|gclid|fbclid|mc_eid|mc_cid|ref|source|campaign)` — case
sensitive, wider than the body pattern. -/
def urlTrackAlt (t : List Char) : Option (List Char) :=
  if "utm_".toList.isPrefixOf t then
    let t1 := t.drop 4
    let run := t1.takeWhile (fun c => ¬(c = '=' ∨ c = '&'))
    if 1 ≤ run.length then some (t1.drop run.length) else none
  else if "gclid".toList.isPrefixOf t then some (t.drop 5)
  else if "fbclid".toList.isPrefixOf t then some (t.drop 6)
  else if "mc_eid".toList.isPrefixOf t then some (t.drop 6)
  else if "mc_cid".toList.isPrefixOf t then some (t.drop 6)
  else if "ref".toList.isPrefixOf t then some (t.drop 3)
  else if "source".toList.isPrefixOf t then some (t.drop 6)
  else if "campaign".toList.isPrefixOf t then some (t.drop 8)
  else none

/-- `[?&](…)=[^&]*` removed entirely (the value may be empty). -/
def urlTrackersMatch (s : List Char) : Option (List Char × List Char) :=
  match s with
  | q :: t =>
    if q = '?' ∨ q = '&' then
      match urlTrackAlt t with
      | some t1 =>
        match t1 with
        | '=' :: t2 => some ([], t2.drop (t2.takeWhile (fun c => c ≠ '&')).length)
        | _ => none
      | none => none
    else none
  | [] => none

/-- `extractURLs`: find all URL tokens, strip tracking parameters, trim a
trailing `?`/`&` run, lower-case, and deduplicate keeping the first
occurrence. -/
def extractURLs (content : String) : List String :=
  let ms := findAllAux urlMatch content.toList.length content.toList
  ms.foldl
    (fun (acc : List String) u =>
      let n := replaceAll urlTrackersMatch u
      let n := (n.reverse.dropWhile (fun c => c = '?' ∨ c = '&')).reverse
      let n := (n.map goToLower).asString
      if n ∈ acc then acc else acc ++ [n])
    []

/-! ## Types and configuration (the v0.5.1 type and config files) -/

/-- `SignatureType` with its `String()` method. -/
inductive SignatureType
  | normalized
  | raw
  | url
  | subject
  | attachment
deriving DecidableEq, Repr

def SignatureType.toStr : SignatureType → String
  | .normalized => "normalized"
  | .raw => "raw"
  | .url => "url"
  | .subject => "subject"
  | .attachment => "attachment"

/-- `TypedSignature`. -/
structure TypedSignature where
  hash : String
  sigType : SignatureType
deriving DecidableEq, Repr

/-- The runtime-tunable globals of the config file, at their source
defaults: per-type thresholds 70/60/50/55/45, `softSpamDelta` 20,
`minBodyLength` 200, weights 1/2, retention 15 days (in seconds). -/
structure Config where
  thresholdNormalized : Nat := 70
  thresholdRaw : Nat := 60
  thresholdURL : Nat := 50
  thresholdSubject : Nat := 55
  thresholdAttachment : Nat := 45
  softSpamDelta : Nat := 20
  minBodyLength : Nat := 200
  spamWeight : Int := 1
  hamWeight : Int := 2
  localRetention : Nat := 1296000

/-- `getThresholdForType` (analysis.go lines 70-85). -/
def getThresholdForType (cfg : Config) : SignatureType → Nat
  | .normalized => cfg.thresholdNormalized
  | .raw => cfg.thresholdRaw
  | .url => cfg.thresholdURL
  | .subject => cfg.thresholdSubject
  | .attachment => cfg.thresholdAttachment

/-- `AnalysisResult`, with `float64` confidence as `ℚ`. -/
structure AnalysisResult where
  action : String
  label : String := ""
  proximityMatch : Bool := false
  distance : Nat := 0
  confidence : ℚ := 0
  matchType : String := ""
deriving DecidableEq, Repr

/-- `ScanResult` stored under `mi:msgid:<sha1>`. -/
structure ScanResult where
  hashes : List String
  timestamp : Int
deriving DecidableEq, Repr

/-- The glaslos/tlsh library surface used by the engine, abstracted:
`hashBytes` is `tlsh.HashBytes` (`none` = error), `parses` is whether
`tlsh.ParseStringToTlsh` succeeds, `diff` is `Tlsh.Diff` on the parsed
values (a non-negative int). -/
structure TlshLib where
  hashBytes : String → Option String
  parses : String → Bool
  diff : String → String → Nat

/-- `computeLocalTLSH` (analysis.go lines 100-107): "T1" prefix plus the
upper-cased library digest. -/
def computeLocalTLSH (lib : TlshLib) (content : String) : Option String :=
  (lib.hashBytes content).map (fun h => "T1" ++ (h.toList.map goToUpper).asString)

/-- `computeDistance` (analysis.go lines 110-129). -/
def computeDistance (lib : TlshLib) (d1 d2 : String) : Option Nat :=
  let d1 := trimT1 d1
  let d2 := trimT1 d2
  if lib.parses d1 then
    if lib.parses d2 then some (lib.diff d1 d2) else none
  else none

/-- `computeDistanceBatch` (analysis.go lines 132-155): parse the reference
once (`none` on failure, the Go error), skip unparsable candidates
silently, and key the result by the original candidate string (all call
sites pass `ids = digests`). -/
def computeDistanceBatch (lib : TlshLib) (ref : String) (digests : List String) :
    Option (List (String × Nat)) :=
  let r := trimT1 ref
  if lib.parses r then
    some (digests.filterMap (fun dg =>
      let d := trimT1 dg
      if lib.parses d then some (dg, lib.diff r d) else none))
  else none

/-! ## The key/value store

One Redis keyspace with disjoint key prefixes, modelled as one typed map
per prefix, keyed by the part after the prefix (`"lg_f:" ++ band` becomes
`lgF band`, `"mi:rpt:" ++ sha1 ++ ":" ++ type` becomes `rpt (sha1 ++ ":"
++ type)`, and so on — the prefixes make collisions between the maps
impossible).  Every entry carries an expiry stamp (`none` = no TTL); a dead
entry is indistinguishable from an absent one, and writes to a dead key
recreate it, which is Redis's passive-expiry semantics. -/

abbrev Expiry : Type := Option Nat

def liveAt (now : Nat) : Expiry → Bool
  | none => true
  | some t => now < t

def liveVal {α : Type} (now : Nat) : Option (α × Expiry) → Option α
  | some (v, e) => if liveAt now e then some v else none
  | none => none

structure KV where
  miF : String → Option (String × Expiry)
  lgF : String → Option (List String × Expiry)
  lgS : String → Option (Int × Expiry)
  ocF : String → Option (List String × Expiry)
  oracleCache : String → Option (AnalysisResult × Expiry)
  rpt : String → Option (String × Expiry)
  msgs : String → Option (ScanResult × Expiry)
  wlDomain : List String
  wlEmail : List String

def emptyKV : KV :=
  ⟨fun _ => none, fun _ => none, fun _ => none, fun _ => none,
   fun _ => none, fun _ => none, fun _ => none, [], []⟩

def setFun {α : Type} (f : String → Option α) (k : String) (v : Option α) :
    String → Option α :=
  fun k' => if k' = k then v else f k'

/-- `SADD`: append the member if absent; a dead key is recreated fresh and
persistent (SADD does not set a TTL). -/
def saddEntry (now : Nat) (member : String) :
    Option (List String × Expiry) → List String × Expiry
  | some (l, e) =>
    if liveAt now e then (if member ∈ l then l else l ++ [member], e)
    else ([member], none)
  | none => ([member], none)

/-- `EXPIRE`: set the TTL of a live key; a no-op on a dead or absent key. -/
def expireEntry {α : Type} (now dur : Nat) :
    Option (α × Expiry) → Option (α × Expiry)
  | some (v, e) => if liveAt now e then some (v, some (now + dur)) else some (v, e)
  | none => none

/-- `INCRBY`/`DECRBY`: missing (or dead) keys count as 0 and are created
persistent; the TTL of a live key is unchanged. -/
def incrEntry (now : Nat) (w : Int) : Option (Int × Expiry) → Int × Expiry
  | some (v, e) => if liveAt now e then (v + w, e) else (w, none)
  | none => (w, none)

def KV.saddLg (kv : KV) (now : Nat) (band member : String) : KV :=
  { kv with lgF := setFun kv.lgF band (some (saddEntry now member (kv.lgF band))) }

def KV.expireLgF (kv : KV) (now : Nat) (band : String) (dur : Nat) : KV :=
  { kv with lgF := setFun kv.lgF band (expireEntry now dur (kv.lgF band)) }

def KV.incrLgS (kv : KV) (now : Nat) (key : String) (w : Int) : KV :=
  { kv with lgS := setFun kv.lgS key (some (incrEntry now w (kv.lgS key))) }

def KV.expireLgS (kv : KV) (now : Nat) (key : String) (dur : Nat) : KV :=
  { kv with lgS := setFun kv.lgS key (expireEntry now dur (kv.lgS key)) }

def KV.saddOc (kv : KV) (now : Nat) (band member : String) : KV :=
  { kv with ocF := setFun kv.ocF band (some (saddEntry now member (kv.ocF band))) }

def KV.expireOc (kv : KV) (now : Nat) (band : String) (dur : Nat) : KV :=
  { kv with ocF := setFun kv.ocF band (expireEntry now dur (kv.ocF band)) }

def KV.setOracleCache (kv : KV) (sig : String) (res : AnalysisResult) (exp : Nat) : KV :=
  { kv with oracleCache := setFun kv.oracleCache sig (some (res, some exp)) }

/-- The successful `SETNX mi:rpt:… "1"` with 24-hour TTL. -/
def KV.setRpt (kv : KV) (now : Nat) (key : String) : KV :=
  { kv with rpt := setFun kv.rpt key (some ("1", some (now + 86400))) }

/-- `storeScanResult`'s `SET mi:msgid:… <json>` with 7-day TTL. -/
def KV.setMsg (kv : KV) (now : Nat) (key : String) (sr : ScanResult) : KV :=
  { kv with msgs := setFun kv.msgs key (some (sr, some (now + 604800))) }

/-! ## The system environment

The external collaborators, fixed for a run: the tlsh library, the oracle's
`/analyze` and `/report` endpoints (`none` = transport error, timeout, or a
response indistinguishable from one — for `/analyze` the Go code treats a
decode producing an empty action exactly like an error), SHA-1 as an opaque
deterministic function, the tunable config snapshot, and the map-iteration
order `ord`. -/

structure Sys where
  lib : TlshLib
  cfg : Config
  oracleAnalyze : String → Option AnalysisResult
  oracleReport : List String → String → Option (Nat × String)
  sha1Hex : String → String

/-- A Go `map` iteration order: an arbitrary reordering applied to the
canonical enumeration of the map's keys.  Passed per call, because each
iteration of a Go map may observe a different order. -/
def Reorder : Type := List String → List String

/-! ## Matcher (analyzeHandler, lines 85-424 of the handler file)

`callOracleDecision` is analysis.go lines 257-318.  The per-signature body
is split at the Go labels: `processSignature` is Layer 1 plus the delegate,
`processRest` is Layers 1.5/2/3 (the numbering in the source comments), and
`analyzeLoop` is the signature loop with the `nextSignature:` break check.
`goto endAnalysis` and the Layer-4 `break` both leave the loop with the
current result, so both are the `endAll` outcome. -/

def callOracleDecision (E : Sys) (kv : KV) (now : Nat) (sig : String) :
    AnalysisResult × KV :=
  match liveVal now (kv.oracleCache sig) with
  | some res => (res, kv)
  | none =>
    match E.oracleAnalyze sig with
    | none => ({ action := "allow", proximityMatch := true }, kv)
    | some result =>
      if result.action ≠ "" then
        if result.action = "spam" then
          let kv := kv.setOracleCache sig result (now + 3600)
          let kv := (extractBands_6_3 sig).foldl
            (fun k band => (k.saddOc now band sig).expireOc now band 3600) kv
          (result, kv)
        else
          (result, kv.setOracleCache sig result (now + 300))
      else ({ action := "allow", proximityMatch := true }, kv)

/-- Outcome of one signature: `endAll` leaves the whole analysis loop
(`goto endAnalysis`, or the Layer-4 `break` which skips the bottom check
with the same effect), `nextSig` falls through to the `nextSignature:`
label. -/
inductive StepOut
  | endAll (r : AnalysisResult) (kv : KV)
  | nextSig (r : AnalysisResult) (kv : KV)

/-- Whether the outcome falls through to the `nextSignature:` label. -/
def StepOut.isNext : StepOut → Bool
  | .nextSig _ _ => true
  | .endAll _ _ => false

def StepOut.res : StepOut → AnalysisResult
  | .endAll r _ => r
  | .nextSig r _ => r

def StepOut.kvOut : StepOut → KV
  | .endAll _ kv => kv
  | .nextSig _ kv => kv

/-- The Layer-2 loop over the oracle-cache distance map (handler lines
258-279).  The pair list is the batch result; its order is the map
iteration order. -/
def layer2Scan (thr soft : Nat) (mt : String) :
    List (String × Nat) → AnalysisResult → Option AnalysisResult × AnalysisResult
  | [], res => (none, res)
  | (_, dist) :: rest, res =>
    if dist ≤ thr then
      (some { action := "spam", label := "oracle_cache_match", proximityMatch := true,
              distance := dist, confidence := getConfidenceForMatch dist thr,
              matchType := mt }, res)
    else if dist ≤ soft then
      layer2Scan thr soft mt rest
        (if res.action ≠ "spam" then
          { action := "soft_spam", label := "oracle_cache_soft", proximityMatch := true,
            distance := dist, confidence := getConfidenceForMatch dist soft,
            matchType := mt }
         else res)
    else layer2Scan thr soft mt rest res

/-- The Layer-3 loop over the local-learning distance map (handler lines
326-352), reading `lg_s:` scores; returns the `isLocalSpam` flag (which
breaks the candidate loop) and the updated result. -/
def layer3Scan (kv : KV) (now thr soft : Nat) (mt : String) :
    List (String × Nat) → AnalysisResult → Bool × AnalysisResult
  | [], res => (false, res)
  | (hash, dist) :: rest, res =>
    if dist ≤ thr then
      let score := (liveVal now (kv.lgS hash)).getD 0
      if score > 0 then
        (true, { action := "spam", label := "local_spam", proximityMatch := true,
                 distance := dist, confidence := getConfidenceForMatch dist thr,
                 matchType := mt })
      else layer3Scan kv now thr soft mt rest res
    else if dist ≤ soft then
      let score := (liveVal now (kv.lgS hash)).getD 0
      layer3Scan kv now thr soft mt rest
        (if score > 0 ∧ res.action ≠ "spam" then
          { action := "soft_spam", label := "local_soft", proximityMatch := true,
            distance := dist, confidence := getConfidenceForMatch dist soft,
            matchType := mt }
         else res)
    else layer3Scan kv now thr soft mt rest res

/-- The ordered, deduplicated union of the member sets behind the given
keys: the handlers read each matched key with `SMEMBERS`, deduplicate
through a Go map (keeping the first occurrence — duplicates are equal
strings, so only the order is observable and `ord` ranges over it). -/
def gatherMembers (ord : Reorder) (f : String → Option (List String × Expiry))
    (now : Nat) (keys : List String) : List String :=
  ord ((keys.flatMap (fun b => (liveVal now (f b)).getD [])).dedup)

/-- The Layer-2 body once at least 4 `oc_f` bands matched (handler lines
239-280): gather candidates, batch distances (a batch error skips the
scan), then the candidate loop. -/
def ocScan (E : Sys) (ord : Reorder) (kv : KV) (now : Nat) (sig : String)
    (thr soft : Nat) (mt : String) (res0 : AnalysisResult) (ocKeys : List String) :
    Option AnalysisResult × AnalysisResult :=
  let ocHashes := gatherMembers ord kv.ocF now ocKeys
  if ocHashes ≠ [] then
    match computeDistanceBatch E.lib sig ocHashes with
    | some dists => layer2Scan thr soft mt dists res0
    | none => (none, res0)
  else (none, res0)

/-- The Layer-3 candidate scan (handler lines 305-357), reading the
TTL-refreshed store `kv1`. -/
def lgScan (E : Sys) (ord : Reorder) (kv1 : KV) (now : Nat) (sig : String)
    (thr soft : Nat) (mt : String) (res1 : AnalysisResult) (lgKeys : List String) :
    Bool × AnalysisResult :=
  let lgHashes := gatherMembers ord kv1.lgF now lgKeys
  if lgHashes ≠ [] then
    match computeDistanceBatch E.lib sig lgHashes with
    | some dists => layer3Scan kv1 now thr soft mt dists res1
    | none => (false, res1)
  else (false, res1)

/-- Layers 1.5 (oracle-cache LSH), 2 (local learning) and 3 (global oracle
LSH) of one signature, after the Layer-1 cache check — the step numbering
follows the source comments.  In the ≥4-band local branch the matched band
keys are refreshed (`EXPIRE`, local retention) before the member reads, and
the branch always ends the signature (`goto nextSignature`), with
`proximity_match` forced on unless a local spam verdict was just built. -/
def processRest (E : Sys) (ord : Reorder) (kv : KV) (now : Nat) (sig : String)
    (threshold softThreshold : Nat) (mt : String) (res0 : AnalysisResult) : StepOut :=
  let bands := extractBands_6_3 sig
  let ocKeys := ord (bands.filter (fun b => (liveVal now (kv.ocF b)).isSome))
  let step2 :=
    if 4 ≤ ocKeys.length then ocScan E ord kv now sig threshold softThreshold mt res0 ocKeys
    else (none, res0)
  match step2 with
  | (some r, _) => .endAll r kv
  | (none, res1) =>
    let lgKeys := ord (bands.filter (fun b => (liveVal now (kv.lgF b)).isSome))
    if 4 ≤ lgKeys.length then
      let kv1 := lgKeys.foldl (fun k b => k.expireLgF now b E.cfg.localRetention) kv
      let scanRes := lgScan E ord kv1 now sig threshold softThreshold mt res1 lgKeys
      if scanRes.1 then .nextSig scanRes.2 kv1
      else .nextSig { scanRes.2 with proximityMatch := true } kv1
    else
      let matchCount := (bands.filter (fun b => (liveVal now (kv.miF b)).isSome)).length
      if 4 ≤ matchCount then
        let vk := callOracleDecision E kv now sig
        if vk.1.action = "spam" then .endAll vk.1 vk.2
        else .nextSig { res1 with proximityMatch := true } vk.2
      else .nextSig res1 kv

/-- One iteration of the signature loop: Layer 1 (exact oracle-decision
cache, handler lines 204-214) then the remaining layers. -/
def processSignature (E : Sys) (ord : Reorder) (kv : KV) (now : Nat) (ts : TypedSignature)
    (finalResult : AnalysisResult) : StepOut :=
  let sig := ts.hash
  let threshold := getThresholdForType E.cfg ts.sigType
  let softThreshold := threshold + E.cfg.softSpamDelta
  match liveVal now (kv.oracleCache sig) with
  | some res =>
    if res.action = "spam" then .endAll res kv
    else processRest E ord kv now sig threshold softThreshold ts.sigType.toStr finalResult
  | none => processRest E ord kv now sig threshold softThreshold ts.sigType.toStr finalResult

/-- The signature loop (handler lines 199-399): after a `nextSig` outcome
the `nextSignature:` label breaks when the action is "spam". -/
def analyzeLoop (E : Sys) (ord : Reorder) (now : Nat) :
    List TypedSignature → AnalysisResult → KV → AnalysisResult × KV
  | [], res, kv => (res, kv)
  | ts :: rest, res, kv =>
    match processSignature E ord kv now ts res with
    | .endAll r kv' => (r, kv')
    | .nextSig r kv' =>
      if r.action = "spam" then (r, kv')
      else analyzeLoop E ord now rest r kv'

/-- Modelled from claim C2's words: the spec says a Layer-3 local-spam
verdict "moves on to the next typed signature (not end analysis)", i.e. a
`nextSig` outcome always continues with the remaining signatures; only the
`endAnalysis` exits (Layers 1, 2, 4-spam) stop the loop.  Identical to
`analyzeLoop` except for the missing break. -/
def analyzeLoopClaimed (E : Sys) (ord : Reorder) (now : Nat) :
    List TypedSignature → AnalysisResult → KV → AnalysisResult × KV
  | [], res, kv => (res, kv)
  | ts :: rest, res, kv =>
    match processSignature E ord kv now ts res with
    | .endAll r kv' => (r, kv')
    | .nextSig r kv' => analyzeLoopClaimed E ord now rest r kv'

/-! ## Signature extraction and the analyze endpoint -/

structure Attachment where
  contentType : String
  content : String
deriving DecidableEq, Repr

/-- The enmime envelope, i.e. the result of MIME parsing (the external
enmime library, deterministic). -/
structure Envelope where
  text : String
  html : String
  messageID : String
  subject : String
  fromHeader : String
  attachments : List Attachment
deriving DecidableEq, Repr

/-- `extractDomain` (analysis.go lines 24-37). -/
def extractDomain (email : String) : String :=
  let cs := trimSpace email.toList
  let cs := if '<' ∈ cs then beforeFirst '>' ((cs.dropWhile (fun c => c ≠ '<')).drop 1) else cs
  if '@' ∈ cs then ((afterFirst '@' cs).map goToLower).asString else ""

/-- `isWhitelisted` (analysis.go lines 40-67), reading the two whitelist
sets. -/
def isWhitelisted (kv : KV) (fromHeader : String) : Bool × String :=
  let domain := extractDomain fromHeader
  let email := fromHeader.toList.map goToLower
  let email := if '<' ∈ email then beforeFirst '>' ((email.dropWhile (fun c => c ≠ '<')).drop 1) else email
  if domain ≠ "" ∧ domain ∈ kv.wlDomain then (true, "domain:" ++ domain)
  else if email ≠ [] ∧ email.asString ∈ kv.wlEmail then (true, "email:" ++ email.asString)
  else (false, "")

/-- The five signature producers of analyzeHandler (handler lines 135-192),
in source order: normalized body, raw body, URL set, subject, attachments,
each behind its minimum-size gate. -/
def extractTypedSignatures (lib : TlshLib) (cfg : Config) (env : Envelope) :
    List TypedSignature :=
  let s1 : List TypedSignature :=
    let combinedBody := normalizeEmailBody env.text env.html
    if cfg.minBodyLength < combinedBody.length then
      match computeLocalTLSH lib combinedBody with
      | some sig => [⟨sig, .normalized⟩]
      | none => []
    else []
  let s2 : List TypedSignature :=
    let rawBody := env.text ++ env.html
    if cfg.minBodyLength < rawBody.length then
      match computeLocalTLSH lib rawBody with
      | some sig => [⟨sig, .raw⟩]
      | none => []
    else []
  let s3 : List TypedSignature :=
    let urls := extractURLs (env.text ++ env.html)
    if 2 ≤ urls.length then
      let urlContent := String.intercalate "\n" urls
      if 100 < urlContent.length then
        match computeLocalTLSH lib urlContent with
        | some sig => [⟨sig, .url⟩]
        | none => []
      else []
    else []
  let s4 : List TypedSignature :=
    if 30 < env.subject.length then
      let normalizedSubject := ((trimSpace env.subject.toList).map goToLower).asString
      let subjectContent := strRepeat (normalizedSubject ++ " ") 5
      match computeLocalTLSH lib subjectContent with
      | some sig => [⟨sig, .subject⟩]
      | none => []
    else []
  let s5 : List TypedSignature :=
    env.attachments.filterMap (fun att =>
      let isImg := "image/".toList.isPrefixOf att.contentType.toList
      if (isImg ∧ 51200 < att.content.length) ∨ (¬isImg ∧ 128 < att.content.length) then
        (computeLocalTLSH lib att.content).map (fun sig => ⟨sig, .attachment⟩)
      else none)
  s1 ++ s2 ++ s3 ++ s4 ++ s5

/-- The analyze response JSON (the whitelist short-circuit shape and the
normal shape merged into one record). -/
structure AnalyzeResponse where
  action : String
  label : String
  proximityMatch : Bool
  distance : Nat
  confidence : ℚ
  matchType : String
  hashes : List String
  whitelisted : Bool := false
  reason : String := ""
deriving DecidableEq, Repr

/-- `analyzeHandler` after MIME parsing: whitelist short-circuit, signature
extraction, the fire-and-forget `storeScanResult` (modelled synchronously —
it has its own deadline and nothing in the loop reads `mi:msgid:`), then
the four-layer loop. -/
def analyzeHandler (E : Sys) (ord : Reorder) (kv : KV) (now : Nat) (env : Envelope) :
    AnalyzeResponse × KV :=
  let wl := isWhitelisted kv env.fromHeader
  if wl.1 then
    ({ action := "allow", label := "whitelisted", proximityMatch := false,
       distance := 0, confidence := 0, matchType := "", hashes := [],
       whitelisted := true, reason := wl.2 }, kv)
  else
    let typedSignatures := extractTypedSignatures E.lib E.cfg env
    let signatures := typedSignatures.map (fun ts => ts.hash)
    let kv :=
      if env.messageID ≠ "" then
        kv.setMsg now (E.sha1Hex env.messageID) ⟨signatures, (now : Int)⟩
      else kv
    let rk := analyzeLoop E ord now typedSignatures
      { action := "allow", proximityMatch := false } kv
    ({ action := rk.1.action, label := rk.1.label,
       proximityMatch := rk.1.proximityMatch, distance := rk.1.distance,
       confidence := rk.1.confidence, matchType := rk.1.matchType,
       hashes := signatures }, rk.2)

/-! ## Learner (reportHandler, lines 426-611 of the handler file) -/

structure ReportResponse where
  status : Nat
  body : String
deriving DecidableEq, Repr

/-- The `for h, dist := range distances` minimum scan (handler lines
529-534): strict `<`, so the first minimizer in iteration order wins;
initial state `("", 9999)`. -/
def bestScan : List (String × Nat) → String × Nat → String × Nat
  | [], best => best
  | (h, d) :: t, best =>
    bestScan t (if d < best.2 then (h, d) else best)

/-- The learner's LSH candidate search (handler lines 483-537): the
closest in-index candidate and its distance under the iteration order;
`("", 9999)` when fewer than 4 bands match, no candidate exists, or the
reference digest does not parse. -/
def learnBest (E : Sys) (ord : Reorder) (now : Nat) (kv : KV) (hash : String) :
    String × Nat :=
  let bands := extractBands_6_3 hash
  let matchingBandsKeys := ord (bands.filter (fun b => (liveVal now (kv.lgF b)).isSome))
  if 4 ≤ matchingBandsKeys.length then
    let candidateList := gatherMembers ord kv.lgF now matchingBandsKeys
    if candidateList ≠ [] then
      match computeDistanceBatch E.lib hash candidateList with
      | some dists => bestScan dists ("", 9999)
      | none => ("", 9999)
    else ("", 9999)
  else ("", 9999)

/-- One iteration of the learner's per-hash loop (handler lines 482-581):
LSH candidate search, canonical-target resolution at the hard-coded
distance 70, then the spam/ham branch.  The accumulator carries the store
and the `skipOracleReport` flag. -/
def learnHash (E : Sys) (ord : Reorder) (now : Nat) (reportType : String)
    (acc : KV × Bool) (hash : String) : KV × Bool :=
  let kv := acc.1
  let best := learnBest E ord now kv hash
  let targetHash := if best.2 ≤ 70 then best.1 else hash
  if reportType = "spam" then
    let skip := acc.2 ∨ best.2 ≤ 70
    let kv := kv.incrLgS now targetHash E.cfg.spamWeight
    let kv := (extractBands_6_3 targetHash).foldl
      (fun k band => (k.saddLg now band targetHash).expireLgF now band E.cfg.localRetention) kv
    let kv := kv.expireLgS now targetHash E.cfg.localRetention
    (kv, skip)
  else if reportType = "ham" then
    if best.2 ≤ 70 then
      let kv := kv.incrLgS now targetHash (-E.cfg.hamWeight)
      let kv := kv.expireLgS now targetHash E.cfg.localRetention
      (kv, acc.2)
    else (kv, acc.2)
  else (kv, acc.2)

/-- `reportHandler`: duplicate suppression by `SETNX mi:rpt:<sha1>:<type>`
(24 h), scan-record lookup, local learning for spam/ham, then the oracle
forward (proxied) unless skipped.  The third component records the
`/report` request actually POSTed to the oracle, if any. -/
def reportHandler (E : Sys) (ord : Reorder) (kv : KV) (now : Nat)
    (messageID reportType : String) :
    ReportResponse × KV × Option (List String × String) :=
  let sha1Hash := E.sha1Hex messageID
  let reportKey := sha1Hash ++ ":" ++ reportType
  if (liveVal now (kv.rpt reportKey)).isSome then
    ({ status := 409,
       body := "\x7b\"status\":\"duplicate\",\"message\":\"Already reported\"\x7d" },
     kv, none)
  else
    let kv := kv.setRpt now reportKey
    match liveVal now (kv.msgs sha1Hash) with
    | none => ({ status := 404, body := "No scan data found" }, kv, none)
    | some scanData =>
      if scanData.hashes = [] then
        ({ status := 400, body := "No hashes to report" }, kv, none)
      else
        let learned :=
          if reportType = "spam" ∨ reportType = "ham" then
            scanData.hashes.foldl (learnHash E ord now reportType) (kv, false)
          else (kv, false)
        if reportType = "spam" ∧ learned.2 then
          ({ status := 200,
             body := "\x7b\"status\":\"skipped_oracle\",\"reason\":\"known_locally\"\x7d" },
           learned.1, none)
        else
          match E.oracleReport scanData.hashes reportType with
          | none =>
            ({ status := 503, body := "Oracle unreachable" }, learned.1,
             some (scanData.hashes, reportType))
          | some cb =>
            ({ status := cb.1, body := cb.2 }, learned.1,
             some (scanData.hashes, reportType))

/-! ## System operations and reachability (for the store invariant) -/

inductive Event
  | analyze (now : Nat) (env : Envelope)
  | report (now : Nat) (messageID reportType : String)

def stepEvent (E : Sys) (ord : Reorder) (kv : KV) : Event → KV
  | .analyze now env => (analyzeHandler E ord kv now env).2
  | .report now mid ty => (reportHandler E ord kv now mid ty).2.1

/-- The store after a sequence of operations, starting empty.  TTL expiry
needs no explicit event: liveness is judged against the observation time. -/
def runEvents (E : Sys) (ord : Reorder) (events : List Event) : KV :=
  events.foldl (stepEvent E ord) emptyKV

/-- The store-level part of the claimed invariant, on raw entries: every
digest recorded as a member of some `lg_f:` band set has an `lg_s:` score
entry (live or expired). -/
def lgInv (kv : KV) : Prop :=
  ∀ band (l : List String) (e : Expiry) (d : String),
    kv.lgF band = some (l, e) → d ∈ l → (kv.lgS d).isSome

/-! ## Spec-side definitions (from the claims' words, for comparison) -/

/-- Band list as claim C1 words it: the body is the 64 characters after the
"T1" marker and the 8-character header, and band `i` (1-based) is the
window of the body at offset `3*(i-1)`. -/
def bandsClaimed (sig : String) : List String :=
  let body := (sig.toList.drop 10).take 64
  (List.range 20).map
    (fun i => toString (i + 1) ++ ":" ++ ((body.drop (3 * i)).take 6).asString)

/-- The windows the code actually takes on its full (T1-prefixed) input:
6 characters of the digest at absolute offset `8 + 3*(i-1)`, so the first
window holds the last two header characters and the last two body
characters are never banded. -/
def bandsFromOffset8 (sig : String) : List String :=
  (List.range 20).map
    (fun i => toString (i + 1) ++ ":" ++ ((sig.toList.drop (8 + 3 * i)).take 6).asString)

/-- Confidence as claim C8 words it: `1.0 - (d/t)*0.5`, floored at 0.5. -/
def confidenceClaimed (distance threshold : Nat) : ℚ :=
  let c : ℚ := 1 - ((distance : ℚ) / (threshold : ℚ)) * (1/2)
  if c < 1/2 then 1/2 else c

/-! ## Concrete instances (used by witnesses and counterexamples) -/

/-- A well-formed 74-character digest: "T1", header `01234567`, body of 64
`A`s. -/
def digA : String := "T101234567" ++ "".pushn 'A' 64

/-- A second digest, distinct from `digA`. -/
def digB : String := "T176543210" ++ "".pushn 'B' 64

/-- A concrete tlsh instantiation: constant hash (so `digA` is the digest
of everything), everything parses, distance 0 between equal strings (as the
real TLSH guarantees) and 999 otherwise. -/
def libA : TlshLib :=
  { hashBytes := fun _ => some ("01234567" ++ "".pushn 'A' 64)
    parses := fun _ => true
    diff := fun a b => if a = b then 0 else 999 }

/-- A concrete system: `libA`, default config, unreachable `/analyze`
oracle, a `/report` oracle answering `200 ok`, and a tagging stand-in for
SHA-1. -/
def sysA : Sys :=
  { lib := libA
    cfg := {}
    oracleAnalyze := fun _ => none
    oracleReport := fun _ _ => some (200, "ok")
    sha1Hex := fun s => "H" ++ s }

/-- The identity iteration order. -/
def ordId : Reorder := fun l => l

/-- Store for the C2 counterexample: `digA` fully indexed in the local
learning index with score 1, and a cached oracle spam verdict for `digB`. -/
def kvC2 : KV :=
  { emptyKV with
    lgF := fun b => if b ∈ extractBands_6_3 digA then some ([digA], none) else none
    lgS := fun d => if d = digA then some (1, none) else none
    oracleCache := fun s =>
      if s = digB then some ({ action := "spam", label := "oracle_cache_match" }, none)
      else none }

/-- Store with `digA` indexed locally at score 5 (ham-report witness). -/
def kvC5 : KV :=
  { emptyKV with
    lgF := fun b => if b ∈ extractBands_6_3 digA then some ([digA], none) else none
    lgS := fun d => if d = digA then some (5, none) else none }

/-- `kvC5` with the score of `digA` driven negative (ham outvoted spam). -/
def kvNeg : KV :=
  { kvC5 with lgS := fun d => if d = digA then some (-1, none) else none }

/-- Store whose global oracle index (`mi_f:`) holds every band of `digA`
and nothing else (oracle-failure witness). -/
def kvC6 : KV :=
  { emptyKV with
    miF := fun b => if b ∈ extractBands_6_3 digA then some ("1", none) else none }

/-- Store holding only the scan record of message `m1` (report witnesses);
`sysA.sha1Hex "m1" = "Hm1"`. -/
def kvMsg : KV :=
  { emptyKV with
    msgs := fun k => if k = "Hm1" then some (⟨[digA], 0⟩, none) else none }

/-- An envelope whose only signature source is a 129-byte non-image
attachment (every other gate fails), analysed as `digA` under `libA`. -/
def envC4 : Envelope :=
  { text := "", html := "", messageID := "m1", subject := "", fromHeader := "a@b.c",
    attachments := [⟨"application/pdf", "".pushn 'p' 129⟩] }

/-- The C4 counterexample trace: analyze (stores the scan record), spam
report at t = 10 (installs `lg_s:digA` and the `lg_f` bands, TTL
10 + 1296000), analyze again at t = 20 (Layer 3 read-hit refreshes the
band keys to TTL 20 + 1296000 but not the score key). -/
def eventsC4 : List Event :=
  [.analyze 0 envC4, .report 10 "m1" "spam", .analyze 20 envC4]

/-! # Claims

Each claim of the specification gets exactly one theorem below (plus a
counterexample for corrected claims and a witness where the theorem has
hypotheses). -/

set_option maxRecDepth 100000 in
/-- Claim C1 (counterexample): the claim states that band `i` of a
well-formed 74-character "T1"-prefixed digest consists of the 6 characters
of the 64-character body (the characters after "T1" and the 8-character
header) at offset `3*(i-1)`.  On the concrete digest `digA` the code's
bands disagree: the code slices `sig[8:72]` of the full string, so band 1
is `"1:67AAAA"` (two header characters included), not `"1:AAAAAA"`. -/
theorem C1_counterexample : extractBands_6_3 digA ≠ bandsClaimed digA := by decide

/-- Claim C1 (amended): for every digest string of length at least 72 the
extraction returns exactly 20 bands, the i-th being `"<i>:"` followed by
the 6 characters of the digest at absolute offset `8 + 3*(i-1)` — i.e. the
window starts two characters before the spec's body offset, covering the
last two header characters of a "T1"-prefixed digest and never the last
two body characters; every input shorter than 72 yields the empty list. -/
theorem C1_bands_amended (sig : String) :
    (72 ≤ sig.toList.length →
      extractBands_6_3 sig = bandsFromOffset8 sig ∧ (extractBands_6_3 sig).length = 20) ∧
    (sig.toList.length < 72 → extractBands_6_3 sig = []) := by
  constructor
  · intro h
    have he : extractBands_6_3 sig = bandsFromOffset8 sig := by
      unfold extractBands_6_3 bandsFromOffset8
      rw [if_neg (by omega)]
      norm_num [extractBandsAux, List.range_succ, List.drop_take, List.drop_drop, List.take_take]
    refine ⟨he, by rw [he]; simp [bandsFromOffset8]⟩
  · intro h
    unfold extractBands_6_3
    rw [if_pos (by omega)]

set_option maxRecDepth 100000 in
theorem C1_bands_amended_witness :
    extractBands_6_3 digA = bandsFromOffset8 digA ∧ extractBands_6_3 "T1short" = [] :=
  ⟨((C1_bands_amended digA).1 (by decide)).1, (C1_bands_amended "T1short").2 (by decide)⟩

/-- Claim C8 (counterexample): the claim's confidence formula
(`1 − (d/t)·0.5` floored at 0.5, hence 0.5 at `d = t`) disagrees with the
code at the boundary: `getConfidenceForMatch` returns 0.0 whenever
`distance >= threshold`, so a match at exactly the threshold gets 0.0. -/
theorem C8_counterexample :
    getConfidenceForMatch 70 70 ≠ confidenceClaimed 70 70 := by
  unfold getConfidenceForMatch confidenceClaimed
  norm_num

/-- Claim C8 (amended): for `d < t` the confidence equals `1 − (d/t)·0.5`,
which is always strictly above 0.5 (the floor never engages); for `d ≥ t`
the function returns 0.0 — in particular a candidate at distance exactly
`t` is still accepted as a spam match by the Layer-2 scan, but its reported
confidence is `getConfidenceForMatch t t = 0`, not 0.5. -/
theorem C8_confidence_amended (d t : Nat) :
    (d < t →
      getConfidenceForMatch d t = 1 - (d : ℚ) / (t : ℚ) * (1/2) ∧
      1/2 < getConfidenceForMatch d t) ∧
    (t ≤ d → getConfidenceForMatch d t = 0) ∧
    (∀ (mt h : String) (res : AnalysisResult),
      (layer2Scan t (t + 20) mt [(h, t)] res).1 =
        some { action := "spam", label := "oracle_cache_match", proximityMatch := true,
               distance := t, confidence := getConfidenceForMatch t t, matchType := mt }) := by
  refine ⟨?_, ?_, ?_⟩
  · intro h
    have ht : (0 : ℚ) < (t : ℚ) := by exact_mod_cast Nat.lt_of_le_of_lt (Nat.zero_le d) h
    have hd : (d : ℚ) / (t : ℚ) < 1 := (div_lt_one ht).2 (by exact_mod_cast h)
    have hge : ¬ (1 - (d : ℚ) / (t : ℚ) * (1/2) < 1/2) := by
      have h0 : (0 : ℚ) ≤ (d : ℚ) / (t : ℚ) := div_nonneg (by positivity) (le_of_lt ht)
      nlinarith
    unfold getConfidenceForMatch
    rw [if_neg (by omega)]
    constructor
    · simp only [if_neg hge]
    · simp only [if_neg hge]
      push_neg at hge
      nlinarith
  · intro h
    unfold getConfidenceForMatch
    rw [if_pos (by omega)]
  · intro mt h res
    simp [layer2Scan]

theorem C8_confidence_amended_witness :
    getConfidenceForMatch 35 70 = 3/4 ∧ getConfidenceForMatch 70 70 = 0 := by
  constructor
  · have h := ((C8_confidence_amended 35 70).1 (by norm_num)).1
    rw [h]; norm_num
  · exact (C8_confidence_amended 70 70).2.1 (le_refl 70)

/-- Claim C7: the spec promises the normalizer is idempotent, but the code
orders the passes so that style-attribute removal can create a new hex run
after hex masking has already run.  At `text = a12345 style="x"678`,
`html = ""`: one pass yields `a12345678` (the style attribute is deleted,
joining `a12345` and `678` into a 9-character hex run), and a second pass
masks that run to `****`, so `normalize (normalize x) ≠ normalize x`. -/
theorem C7_normalizer_not_idempotent :
    normalizeEmailBody "a12345 style=\"x\"678" "" = "a12345678" ∧
    normalizeEmailBody "a12345678" "" = "****" ∧
    normalizeEmailBody (normalizeEmailBody "a12345 style=\"x\"678" "") "" ≠
      normalizeEmailBody "a12345 style=\"x\"678" "" := by decide



theorem layer2Scan_cont_action (thr soft : Nat) (mt : String) :
    ∀ (l : List (String × Nat)) (res r : AnalysisResult),
      layer2Scan thr soft mt l res = (none, r) → r.action = res.action ∨ r.action = "soft_spam" := by
  intro l
  induction l with
  | nil => intro res r h; simp [layer2Scan] at h; left; rw [← h]
  | cons p rest ih =>
    intro res r h
    rw [layer2Scan] at h
    by_cases h1 : p.2 ≤ thr
    · simp [h1] at h
    · rw [if_neg h1] at h
      by_cases h2 : p.2 ≤ soft
      · rw [if_pos h2] at h
        by_cases h3 : res.action ≠ "spam"
        · rw [if_pos h3] at h
          rcases ih _ _ h with h4 | h4
          · right; rw [h4]
          · right; exact h4
        · rw [if_neg h3] at h
          exact ih _ _ h
      · rw [if_neg h2] at h
        exact ih _ _ h

theorem layer3Scan_spam (kv : KV) (now thr soft : Nat) (mt : String) :
    ∀ (l : List (String × Nat)) (res r : AnalysisResult),
      layer3Scan kv now thr soft mt l res = (true, r) →
      r.action = "spam" ∧ r.label = "local_spam" := by
  intro l
  induction l with
  | nil => intro res r h; simp [layer3Scan] at h
  | cons p rest ih =>
    intro res r h
    rw [layer3Scan] at h
    by_cases h1 : p.2 ≤ thr
    · rw [if_pos h1] at h
      by_cases h2 : (liveVal now (kv.lgS p.1)).getD 0 > 0
      · simp only [if_pos h2, Prod.mk.injEq] at h
        rw [← h.2]
        exact ⟨rfl, rfl⟩
      · rw [if_neg h2] at h
        exact ih _ _ h
    · rw [if_neg h1] at h
      by_cases h2 : p.2 ≤ soft
      · rw [if_pos h2] at h
        exact ih _ _ h
      · rw [if_neg h2] at h
        exact ih _ _ h

theorem layer3Scan_no_spam (kv : KV) (now thr soft : Nat) (mt : String) :
    ∀ (l : List (String × Nat)) (res r : AnalysisResult),
      layer3Scan kv now thr soft mt l res = (false, r) →
      r.action = res.action ∨ r.action = "soft_spam" := by
  intro l
  induction l with
  | nil => intro res r h; simp [layer3Scan] at h; left; rw [← h]
  | cons p rest ih =>
    intro res r h
    rw [layer3Scan] at h
    by_cases h1 : p.2 ≤ thr
    · rw [if_pos h1] at h
      by_cases h2 : (liveVal now (kv.lgS p.1)).getD 0 > 0
      · simp [h2] at h
      · rw [if_neg h2] at h
        exact ih _ _ h
    · rw [if_neg h1] at h
      by_cases h2 : p.2 ≤ soft
      · rw [if_pos h2] at h
        simp only [] at h
        by_cases h3 : (liveVal now (kv.lgS p.1)).getD 0 > 0 ∧ res.action ≠ "spam"
        · rw [if_pos h3] at h
          rcases ih _ _ h with h4 | h4
          · right; rw [h4]
          · right; exact h4
        · rw [if_neg h3] at h
          exact ih _ _ h
      · rw [if_neg h2] at h
        exact ih _ _ h

theorem ocScan_none (E : Sys) (ord : Reorder) (kv : KV) (now : Nat) (sig : String)
    (thr soft : Nat) (mt : String) (res0 r : AnalysisResult) (ocKeys : List String)
    (h : ocScan E ord kv now sig thr soft mt res0 ocKeys = (none, r)) :
    r.action = res0.action ∨ r.action = "soft_spam" := by
  unfold ocScan at h
  simp only [] at h
  split at h
  · split at h
    · exact layer2Scan_cont_action _ _ _ _ _ _ h
    · simp at h; left; rw [h]
  · simp at h; left; rw [h]

theorem lgScan_spam (E : Sys) (ord : Reorder) (kv1 : KV) (now : Nat) (sig : String)
    (thr soft : Nat) (mt : String) (res1 : AnalysisResult) (lgKeys : List String)
    (h : (lgScan E ord kv1 now sig thr soft mt res1 lgKeys).1 = true) :
    (lgScan E ord kv1 now sig thr soft mt res1 lgKeys).2.action = "spam" ∧
    (lgScan E ord kv1 now sig thr soft mt res1 lgKeys).2.label = "local_spam" := by
  rcases heq : lgScan E ord kv1 now sig thr soft mt res1 lgKeys with ⟨b, r⟩
  rw [heq] at h
  simp at h
  subst h
  unfold lgScan at heq
  simp only [] at heq
  split at heq
  · split at heq
    · exact layer3Scan_spam _ _ _ _ _ _ _ _ heq
    · simp at heq
  · simp at heq

theorem lgScan_no_spam (E : Sys) (ord : Reorder) (kv1 : KV) (now : Nat) (sig : String)
    (thr soft : Nat) (mt : String) (res1 : AnalysisResult) (lgKeys : List String)
    (h : (lgScan E ord kv1 now sig thr soft mt res1 lgKeys).1 = false) :
    (lgScan E ord kv1 now sig thr soft mt res1 lgKeys).2.action = res1.action ∨
    (lgScan E ord kv1 now sig thr soft mt res1 lgKeys).2.action = "soft_spam" := by
  rcases heq : lgScan E ord kv1 now sig thr soft mt res1 lgKeys with ⟨b, r⟩
  rw [heq] at h
  simp at h
  subst h
  unfold lgScan at heq
  simp only [] at heq
  split at heq
  · split at heq
    · exact layer3Scan_no_spam _ _ _ _ _ _ _ _ heq
    · simp at heq; left; rw [← heq]
  · simp at heq; left; rw [← heq]

theorem processRest_nextSig_spam (E : Sys) (ord : Reorder) (kv : KV) (now : Nat)
    (sig : String) (thr soft : Nat) (mt : String) (res0 r' : AnalysisResult) (kv' : KV)
    (h0 : res0.action ≠ "spam")
    (hstep : processRest E ord kv now sig thr soft mt res0 = .nextSig r' kv')
    (hspam : r'.action = "spam") : r'.label = "local_spam" := by
  unfold processRest at hstep
  simp only [] at hstep
  split at hstep
  case _ r heq => exact absurd hstep (by simp)
  case _ res1 heq =>
    have hres1 : res1.action = res0.action ∨ res1.action = "soft_spam" := by
      split at heq
      · exact ocScan_none _ _ _ _ _ _ _ _ _ _ _ heq
      · simp at heq; left; rw [← heq]
    have hres1' : res1.action ≠ "spam" := by
      rcases hres1 with h | h
      · rw [h]; exact h0
      · rw [h]; simp
    split at hstep
    · split at hstep
      · rename_i hsc
        simp only [StepOut.nextSig.injEq] at hstep
        rw [← hstep.1]
        exact (lgScan_spam _ _ _ _ _ _ _ _ _ _ hsc).2
      · rename_i hsc
        simp only [StepOut.nextSig.injEq] at hstep
        rw [← hstep.1] at hspam
        simp only [] at hspam
        rw [Bool.not_eq_true] at hsc
        rcases lgScan_no_spam _ _ _ _ _ _ _ _ _ _ hsc with h4 | h4
        · rw [h4] at hspam; exact absurd hspam hres1'
        · rw [h4] at hspam; simp at hspam
    · split at hstep
      · split at hstep
        · exact absurd hstep (by simp)
        · simp only [StepOut.nextSig.injEq] at hstep
          rw [← hstep.1] at hspam
          simp only [] at hspam
          exact absurd hspam hres1'
      · simp only [StepOut.nextSig.injEq] at hstep
        rw [← hstep.1] at hspam
        exact absurd hspam hres1'

theorem isNext_eq (o : StepOut) (h : o.isNext = true) : o = .nextSig o.res o.kvOut := by
  cases o with
  | endAll r k => simp [StepOut.isNext] at h
  | nextSig r k => rfl

/-- Claim C2 (counterexample): on a store where the first typed signature
triggers a Layer-3 local-spam verdict and the second signature has a
cached oracle spam verdict, the code's loop stops after the first signature
(label `local_spam`) whereas the loop described by the claim — which
continues with the remaining typed signatures — would surface the second
signature's cached verdict.  The two disagree, so the local-spam verdict
does not merely end the current signature. -/
theorem C2_counterexample :
    (analyzeLoop sysA ordId 0 [⟨digA, .normalized⟩, ⟨digB, .raw⟩]
        { action := "allow", proximityMatch := false } kvC2).1.label ≠
      (analyzeLoopClaimed sysA ordId 0 [⟨digA, .normalized⟩, ⟨digB, .raw⟩]
        { action := "allow", proximityMatch := false } kvC2).1.label := by decide

/-- Claim C2 (amended): when Layer 3 finds a candidate at distance ≤ the
per-type threshold with positive score, the signature's outcome reaches the
`nextSignature:` check with action "spam" — and the only way a
non-spam-input signature can do that is the Layer-3 `local_spam` verdict —
whereupon the loop breaks: the remaining typed signatures are not
processed, i.e. the local-spam verdict ends the entire analysis, exactly
like the other spam verdicts. -/
theorem C2_local_spam_ends_analysis (E : Sys) (ord : Reorder) (now : Nat)
    (ts : TypedSignature) (rest : List TypedSignature) (res r' : AnalysisResult)
    (kv kv' : KV)
    (hres : res.action ≠ "spam")
    (hstep : processSignature E ord kv now ts res = .nextSig r' kv')
    (hspam : r'.action = "spam") :
    r'.label = "local_spam" ∧
    analyzeLoop E ord now (ts :: rest) res kv = (r', kv') := by
  constructor
  · unfold processSignature at hstep
    simp only [] at hstep
    split at hstep
    · split at hstep
      · exact absurd hstep (by simp)
      · exact processRest_nextSig_spam _ _ _ _ _ _ _ _ _ _ _ hres hstep hspam
    · exact processRest_nextSig_spam _ _ _ _ _ _ _ _ _ _ _ hres hstep hspam
  · rw [analyzeLoop, hstep]
    simp [hspam]

set_option maxRecDepth 100000 in
theorem C2_local_spam_ends_analysis_witness :
    (analyzeLoop sysA ordId 0 [⟨digA, .normalized⟩, ⟨digB, .raw⟩]
        { action := "allow", proximityMatch := false } kvC2).1.label = "local_spam" := by
  have hn : (processSignature sysA ordId kvC2 0 ⟨digA, .normalized⟩
      { action := "allow", proximityMatch := false }).isNext = true := by decide
  have ha : (processSignature sysA ordId kvC2 0 ⟨digA, .normalized⟩
      { action := "allow", proximityMatch := false }).res.action = "spam" := by decide
  have h := C2_local_spam_ends_analysis sysA ordId 0 ⟨digA, .normalized⟩ [⟨digB, .raw⟩]
    { action := "allow", proximityMatch := false } _ _ _ (by decide) (isNext_eq _ hn) ha
  rw [h.2]
  exact h.1

/-- Claim C6: when Layer 4 is reached (at least 4 `mi_f` bands, no cached
verdict, fewer than 4 `oc_f` and `lg_f` band hits) and the oracle call
fails, the signature is treated as non-spam with proximity: the outcome
keeps the running action (so no spam from this signature), sets
`proximity_match := true`, and leaves the store untouched — in particular
nothing is written to the `mi:oracle_cache:` map and no `oc_f:` band is
indexed. -/
theorem C6_oracle_failure (E : Sys) (ord : Reorder) (kv : KV) (now : Nat)
    (ts : TypedSignature) (res : AnalysisResult)
    (hperm : ∀ l, (ord l).Perm l)
    (hcache : liveVal now (kv.oracleCache ts.hash) = none)
    (hoc : ((extractBands_6_3 ts.hash).filter
      (fun b => (liveVal now (kv.ocF b)).isSome)).length < 4)
    (hlg : ((extractBands_6_3 ts.hash).filter
      (fun b => (liveVal now (kv.lgF b)).isSome)).length < 4)
    (hmi : 4 ≤ ((extractBands_6_3 ts.hash).filter
      (fun b => (liveVal now (kv.miF b)).isSome)).length)
    (hfail : E.oracleAnalyze ts.hash = none) :
    processSignature E ord kv now ts res =
      .nextSig { res with proximityMatch := true } kv := by
  have hoc' : ¬ 4 ≤ (ord ((extractBands_6_3 ts.hash).filter
      (fun b => (liveVal now (kv.ocF b)).isSome))).length := by
    rw [List.Perm.length_eq (hperm _)]; omega
  have hlg' : ¬ 4 ≤ (ord ((extractBands_6_3 ts.hash).filter
      (fun b => (liveVal now (kv.lgF b)).isSome))).length := by
    rw [List.Perm.length_eq (hperm _)]; omega
  have hco : callOracleDecision E kv now ts.hash =
      ({ action := "allow", proximityMatch := true }, kv) := by
    unfold callOracleDecision
    rw [hcache, hfail]
  unfold processSignature
  simp only []
  rw [hcache]
  simp only []
  unfold processRest
  simp only [if_neg hoc', if_neg hlg', if_pos hmi, hco]
  norm_num
  intro h
  exact absurd h (by decide)

theorem C6_oracle_failure_witness :
    processSignature sysA ordId kvC6 0 ⟨digA, .normalized⟩
        { action := "allow", proximityMatch := false } =
      .nextSig { action := "allow", proximityMatch := true } kvC6 :=
  C6_oracle_failure sysA ordId kvC6 0 ⟨digA, .normalized⟩
    { action := "allow", proximityMatch := false }
    (fun l => List.Perm.refl l) (by decide) (by decide) (by decide) (by decide) rfl




theorem incrLgS_rpt (kv : KV) (now : Nat) (k : String) (w : Int) :
    (kv.incrLgS now k w).rpt = kv.rpt := rfl

theorem expireLgS_rpt (kv : KV) (now : Nat) (k : String) (d : Nat) :
    (kv.expireLgS now k d).rpt = kv.rpt := rfl

theorem saddLg_rpt (kv : KV) (now : Nat) (b m : String) :
    (kv.saddLg now b m).rpt = kv.rpt := rfl

theorem expireLgF_rpt (kv : KV) (now : Nat) (b : String) (d : Nat) :
    (kv.expireLgF now b d).rpt = kv.rpt := rfl

theorem foldSadd_rpt (now : Nat) (t : String) (d : Nat) :
    ∀ (l : List String) (kv : KV),
      (l.foldl (fun k band => (k.saddLg now band t).expireLgF now band d) kv).rpt = kv.rpt := by
  intro l
  induction l with
  | nil => intro kv; rfl
  | cons b rest ih => intro kv; rw [List.foldl_cons, ih]; rfl

theorem ite_fst_rpt (c : Prop) [Decidable c] (a b : KV × Bool)
    (r : String → Option (String × Expiry))
    (ha : a.1.rpt = r) (hb : b.1.rpt = r) : (if c then a else b).1.rpt = r := by
  by_cases h : c
  · rw [if_pos h]; exact ha
  · rw [if_neg h]; exact hb

theorem learnHash_rpt (E : Sys) (ord : Reorder) (now : Nat) (ty : String)
    (acc : KV × Bool) (h : String) : (learnHash E ord now ty acc h).1.rpt = acc.1.rpt := by
  unfold learnHash
  simp only []
  split
  · rw [expireLgS_rpt, foldSadd_rpt, incrLgS_rpt]
  · split
    · refine ite_fst_rpt _ _ _ _ ?_ ?_
      · rw [expireLgS_rpt, incrLgS_rpt]
      · rfl
    · rfl

theorem foldLearn_rpt (E : Sys) (ord : Reorder) (now : Nat) (ty : String) :
    ∀ (hashes : List String) (acc : KV × Bool),
      (hashes.foldl (learnHash E ord now ty) acc).1.rpt = acc.1.rpt := by
  intro hashes
  induction hashes with
  | nil => intro acc; rfl
  | cons h rest ih => intro acc; rw [List.foldl_cons, ih, learnHash_rpt]

theorem reportHandler_rpt_set (E : Sys) (ord : Reorder) (kv : KV) (t : Nat)
    (mid ty : String)
    (hfresh : liveVal t (kv.rpt (E.sha1Hex mid ++ ":" ++ ty)) = none) :
    (reportHandler E ord kv t mid ty).2.1.rpt (E.sha1Hex mid ++ ":" ++ ty) =
      some ("1", some (t + 86400)) := by
  unfold reportHandler
  simp only []
  rw [if_neg (by rw [hfresh]; simp)]
  have hkey : (kv.setRpt t (E.sha1Hex mid ++ ":" ++ ty)).rpt (E.sha1Hex mid ++ ":" ++ ty) =
      some ("1", some (t + 86400)) := by
    unfold KV.setRpt setFun
    simp
  split
  · exact hkey
  · split
    · exact hkey
    · by_cases hg : ty = "spam" ∨ ty = "ham"
      · rw [if_pos hg]
        split
        · rw [foldLearn_rpt]; exact hkey
        · split
          · rw [foldLearn_rpt]; exact hkey
          · rw [foldLearn_rpt]; exact hkey
      · rw [if_neg hg]
        split
        · exact hkey
        · split
          · exact hkey
          · exact hkey



/-- Claim C3: for two /report calls with the same message-id and
report_type within 24 hours (the suppression key being fresh before the
first), the first call wins the `SETNX` and proceeds — the 24-hour
`mi:rpt:<sha1(mid)>:<type>` key is set — and the second call is answered
HTTP 409 with the duplicate body, leaves the entire store untouched (no
lg_s change, no lg_f SAdd — the state is returned unchanged) and performs
no oracle call. -/
theorem C3_duplicate_suppression (E : Sys) (ord : Reorder) (kv : KV)
    (t1 t2 : Nat) (mid ty : String)
    (hfresh : liveVal t1 (kv.rpt (E.sha1Hex mid ++ ":" ++ ty)) = none)
    (ht : t1 ≤ t2) (hwin : t2 < t1 + 86400) :
    ((reportHandler E ord kv t1 mid ty).2.1.rpt (E.sha1Hex mid ++ ":" ++ ty) =
      some ("1", some (t1 + 86400))) ∧
    reportHandler E ord (reportHandler E ord kv t1 mid ty).2.1 t2 mid ty =
      ({ status := 409,
         body := "\x7b\"status\":\"duplicate\",\"message\":\"Already reported\"\x7d" },
       (reportHandler E ord kv t1 mid ty).2.1, none) := by
  have hkey := reportHandler_rpt_set E ord kv t1 mid ty hfresh
  refine ⟨hkey, ?_⟩
  conv_lhs => rw [reportHandler]
  rw [if_pos (by rw [hkey]; unfold liveVal liveAt; simp; omega)]

theorem C3_duplicate_suppression_witness :
    reportHandler sysA ordId (reportHandler sysA ordId kvMsg 0 "m1" "spam").2.1 100 "m1" "spam" =
      ({ status := 409,
         body := "\x7b\"status\":\"duplicate\",\"message\":\"Already reported\"\x7d" },
       (reportHandler sysA ordId kvMsg 0 "m1" "spam").2.1, none) :=
  (C3_duplicate_suppression sysA ordId kvMsg 0 100 "m1" "spam" (by decide)
    (by omega) (by omega)).2

/-- Claim C10: a /report call whose report_type is neither "spam" nor
"ham" is not rejected: it still consumes the 24-hour duplicate-suppression
key (the resulting store is exactly the input store plus that key),
performs no local learning at all, and forwards the stored signatures with
the unvalidated report_type string verbatim to the oracle's /report,
proxying the oracle's status code and body back to the caller. -/
theorem C10_unknown_report_type (E : Sys) (ord : Reorder) (kv : KV) (now : Nat)
    (mid ty : String) (sr : ScanResult) (code : Nat) (body : String)
    (hty1 : ty ≠ "spam") (hty2 : ty ≠ "ham")
    (hfresh : liveVal now (kv.rpt (E.sha1Hex mid ++ ":" ++ ty)) = none)
    (hrec : liveVal now (kv.msgs (E.sha1Hex mid)) = some sr)
    (hnem : sr.hashes ≠ [])
    (horacle : E.oracleReport sr.hashes ty = some (code, body)) :
    reportHandler E ord kv now mid ty =
      ({ status := code, body := body },
       kv.setRpt now (E.sha1Hex mid ++ ":" ++ ty),
       some (sr.hashes, ty)) := by
  unfold reportHandler
  simp only []
  rw [if_neg (by rw [hfresh]; simp)]
  have hrec' : liveVal now ((kv.setRpt now (E.sha1Hex mid ++ ":" ++ ty)).msgs (E.sha1Hex mid)) =
      some sr := hrec
  rw [hrec']
  simp only []
  rw [if_neg (by simpa using hnem)]
  have hg : ¬ (ty = "spam" ∨ ty = "ham") := fun hc => hc.elim hty1 hty2
  rw [if_neg hg]
  have hs : ¬ (ty = "spam" ∧
      ((kv.setRpt now (E.sha1Hex mid ++ ":" ++ ty), false) : KV × Bool).2 = true) :=
    fun hc => hty1 hc.1
  rw [if_neg hs]
  rw [horacle]

theorem C10_unknown_report_type_witness :
    reportHandler sysA ordId kvMsg 0 "m1" "abuse" =
      ({ status := 200, body := "ok" }, kvMsg.setRpt 0 "Hm1:abuse", some ([digA], "abuse")) :=
  C10_unknown_report_type sysA ordId kvMsg 0 "m1" "abuse" ⟨[digA], 0⟩ 200 "ok"
    (by decide) (by decide) (by decide) (by decide) (by decide) rfl



theorem bestScan_min : ∀ (l : List (String × Nat)) (b : String × Nat),
    (bestScan l b).2 ≤ b.2 ∧ ∀ p ∈ l, (bestScan l b).2 ≤ p.2 := by
  intro l
  induction l with
  | nil => intro b; exact ⟨le_refl _, by simp⟩
  | cons p rest ih =>
    intro b
    rw [bestScan]
    by_cases h : p.2 < b.2
    · rw [if_pos h]
      rcases ih p with ⟨h1, h2⟩
      refine ⟨le_trans h1 (le_of_lt h), ?_⟩
      intro q hq
      rcases List.mem_cons.1 hq with rfl | hq
      · exact h1
      · exact h2 q hq
    · rw [if_neg h]
      rcases ih b with ⟨h1, h2⟩
      refine ⟨h1, ?_⟩
      intro q hq
      rcases List.mem_cons.1 hq with rfl | hq
      · exact le_trans h1 (le_of_not_lt h)
      · exact h2 q hq

theorem incrExpire_lgS_self (kv : KV) (now : Nat) (key : String) (w : Int) (d : Nat) :
    ((kv.incrLgS now key w).expireLgS now key d).lgS key =
      some ((liveVal now (kv.lgS key)).getD 0 + w, some (now + d)) := by
  unfold KV.incrLgS KV.expireLgS setFun
  simp only [if_pos rfl]
  rcases h : kv.lgS key with _ | ⟨v, e⟩
  · simp [incrEntry, expireEntry, liveVal, liveAt, h]
  · by_cases hl : liveAt now e = true
    · simp [h, hl, incrEntry, expireEntry, liveVal]
    · have h0 : liveAt now (none : Expiry) = true := rfl
      simp [h, incrEntry, hl, expireEntry, liveVal, h0]

theorem incrExpire_lgS_other (kv : KV) (now : Nat) (key : String) (w : Int) (d : Nat)
    (k : String) (h : k ≠ key) :
    ((kv.incrLgS now key w).expireLgS now key d).lgS k = kv.lgS k := by
  unfold KV.incrLgS KV.expireLgS setFun
  simp [h]

/-- Claim C5: a ham report signature whose LSH search finds a nearest local
candidate at distance ≤ 70 decrements that candidate's `lg_s` score by
exactly `ham_weight` and refreshes the score key's TTL to the local
retention, touching no other score, no band set, and no other store field;
a ham signature with no candidate within 70 (in particular when fewer than
4 bands match) is a complete no-op; and the candidate the code settles on
is minimal among all batch distances. -/
theorem C5_ham_report (E : Sys) (ord : Reorder) (now : Nat) (kv : KV) (skip : Bool)
    (hash : String) :
    ((learnBest E ord now kv hash).2 ≤ 70 →
      learnHash E ord now "ham" (kv, skip) hash =
        ((kv.incrLgS now (learnBest E ord now kv hash).1 (-E.cfg.hamWeight)).expireLgS
            now (learnBest E ord now kv hash).1 E.cfg.localRetention, skip) ∧
      (learnHash E ord now "ham" (kv, skip) hash).1.lgS (learnBest E ord now kv hash).1 =
        some ((liveVal now (kv.lgS (learnBest E ord now kv hash).1)).getD 0 - E.cfg.hamWeight,
              some (now + E.cfg.localRetention)) ∧
      (∀ k, k ≠ (learnBest E ord now kv hash).1 →
        (learnHash E ord now "ham" (kv, skip) hash).1.lgS k = kv.lgS k) ∧
      (learnHash E ord now "ham" (kv, skip) hash).1.lgF = kv.lgF ∧
      (learnHash E ord now "ham" (kv, skip) hash).1.rpt = kv.rpt) ∧
    (¬ (learnBest E ord now kv hash).2 ≤ 70 →
      learnHash E ord now "ham" (kv, skip) hash = (kv, skip)) ∧
    (∀ dists, computeDistanceBatch E.lib hash
        (gatherMembers ord kv.lgF now
          (ord ((extractBands_6_3 hash).filter (fun b => (liveVal now (kv.lgF b)).isSome)))) =
          some dists →
      4 ≤ (ord ((extractBands_6_3 hash).filter (fun b => (liveVal now (kv.lgF b)).isSome))).length →
      ∀ p ∈ dists, (learnBest E ord now kv hash).2 ≤ p.2) := by
  have hham : learnHash E ord now "ham" (kv, skip) hash =
      (if (learnBest E ord now kv hash).2 ≤ 70 then
        ((kv.incrLgS now
            (if (learnBest E ord now kv hash).2 ≤ 70 then (learnBest E ord now kv hash).1 else hash)
            (-E.cfg.hamWeight)).expireLgS now
            (if (learnBest E ord now kv hash).2 ≤ 70 then (learnBest E ord now kv hash).1 else hash)
            E.cfg.localRetention, skip)
      else (kv, skip)) := by
    unfold learnHash
    simp only []
    rw [if_neg (by decide)]
    simp only [if_true]
  refine ⟨?_, ?_, ?_⟩
  · intro hle
    rw [hham, if_pos hle, if_pos hle]
    refine ⟨rfl, ?_, ?_, rfl, rfl⟩
    · rw [incrExpire_lgS_self, sub_eq_add_neg]
    · intro k hk
      exact incrExpire_lgS_other _ _ _ _ _ _ hk
  · intro hle
    rw [hham, if_neg hle]
  · intro dists hbatch h4
    unfold learnBest
    simp only []
    rw [if_pos h4]
    by_cases hc : gatherMembers ord kv.lgF now
        (ord ((extractBands_6_3 hash).filter (fun b => (liveVal now (kv.lgF b)).isSome))) ≠ []
    · rw [if_pos hc, hbatch]
      exact fun p hp => (bestScan_min dists ("", 9999)).2 p hp
    · push_neg at hc
      rw [hc] at hbatch
      unfold computeDistanceBatch at hbatch
      simp only [] at hbatch
      split at hbatch
      · simp only [List.filterMap_nil, Option.some.injEq] at hbatch
        intro p hp
        rw [← hbatch] at hp
        simp at hp
      · simp at hbatch

theorem C5_ham_report_witness :
    (learnHash sysA ordId 0 "ham" (kvC5, false) digA).1.lgS digA =
      some (3, some 1296000) := by
  have h := ((C5_ham_report sysA ordId 0 kvC5 false digA).1 (by decide)).2.1
  have hb : (learnBest sysA ordId 0 kvC5 digA).1 = digA := by decide
  rw [hb] at h
  rw [h]
  decide

end Guardian


namespace Guardian

theorem foldSadd_lgS (now : Nat) (t : String) (d : Nat) :
    ∀ (l : List String) (kv : KV),
      (l.foldl (fun k band => (k.saddLg now band t).expireLgF now band d) kv).lgS = kv.lgS := by
  intro l
  induction l with
  | nil => intro kv; rfl
  | cons b rest ih => intro kv; rw [List.foldl_cons, ih]; rfl

theorem expireLgS_isSome (kv : KV) (now : Nat) (k : String) (d : Nat) (key : String) :
    ((kv.expireLgS now k d).lgS key).isSome = ((kv.lgS key).isSome) := by
  unfold KV.expireLgS setFun
  by_cases h : key = k
  · subst h
    simp only [if_pos rfl]
    unfold expireEntry
    rcases kv.lgS key with _ | ⟨v, e⟩
    · rfl
    · by_cases hl : liveAt now e = true
      · simp [hl]
      · simp [hl]
  · simp [h]

theorem incrLgS_isSome_self (kv : KV) (now : Nat) (k : String) (w : Int) :
    ((kv.incrLgS now k w).lgS k).isSome := by
  unfold KV.incrLgS setFun
  simp

theorem incrLgS_isSome_mono (kv : KV) (now : Nat) (k : String) (w : Int) (key : String)
    (h : (kv.lgS key).isSome) : ((kv.incrLgS now k w).lgS key).isSome := by
  unfold KV.incrLgS setFun
  by_cases hk : key = k
  · simp [hk]
  · simpa [hk] using h

theorem ite_some_pair_fst {c : Prop} [Decidable c] {L : List String} {a b : Expiry}
    {l' : List String} {e' : Expiry}
    (h : (if c then some (L, a) else some (L, b)) = some (l', e')) : l' = L := by
  by_cases hc : c
  · rw [if_pos hc] at h
    simp at h
    exact h.1.symm
  · rw [if_neg hc] at h
    simp at h
    exact h.1.symm

theorem saddExpire_lgF_sub (kv : KV) (now : Nat) (b t : String) (dur : Nat) :
    ∀ (b' : String) (l' : List String) (e' : Expiry),
      (((kv.saddLg now b t).expireLgF now b dur).lgF b') = some (l', e') →
      ∀ x ∈ l', x = t ∨ ∃ l0 e0, kv.lgF b' = some (l0, e0) ∧ x ∈ l0 := by
  intro b' l' e' hb x hx
  unfold KV.saddLg KV.expireLgF setFun at hb
  by_cases h : b' = b
  · subst h
    simp only [if_pos rfl] at hb
    unfold saddEntry expireEntry at hb
    rcases hsv : kv.lgF b' with _ | ⟨l0, e0⟩ <;> rw [hsv] at hb
    · simp only [] at hb
      rw [ite_some_pair_fst hb] at hx
      simp at hx
      left; exact hx
    · simp only [] at hb
      by_cases hl : liveAt now e0 = true
      · simp only [if_pos hl] at hb
        by_cases hm : t ∈ l0
        · simp only [if_pos hm] at hb
          right
          exact ⟨l0, e0, rfl, by rw [← ite_some_pair_fst hb]; exact hx⟩
        · simp only [if_neg hm] at hb
          rw [ite_some_pair_fst hb] at hx
          rcases List.mem_append.1 hx with h1 | h1
          · right; exact ⟨l0, e0, rfl, h1⟩
          · simp at h1; left; exact h1
      · simp only [if_neg hl] at hb
        rw [ite_some_pair_fst hb] at hx
        simp at hx
        left; exact hx
  · simp only [if_neg h] at hb
    right
    exact ⟨l', e', hb, hx⟩

theorem foldSadd_lgF_sub (now : Nat) (t : String) (dur : Nat) :
    ∀ (bands : List String) (kv : KV) (b' : String) (l' : List String) (e' : Expiry),
      ((bands.foldl (fun k band => (k.saddLg now band t).expireLgF now band dur) kv).lgF b') =
        some (l', e') →
      ∀ x ∈ l', x = t ∨ ∃ l0 e0, kv.lgF b' = some (l0, e0) ∧ x ∈ l0 := by
  intro bands
  induction bands with
  | nil => intro kv b' l' e' hb x hx; right; exact ⟨l', e', hb, hx⟩
  | cons b rest ih =>
    intro kv b' l' e' hb x hx
    rw [List.foldl_cons] at hb
    rcases ih _ _ _ _ hb x hx with h1 | ⟨l0, e0, h2, h3⟩
    · left; exact h1
    · rcases saddExpire_lgF_sub kv now b t dur b' l0 e0 h2 x h3 with h4 | h4
      · left; exact h4
      · right; exact h4

theorem learnHash_inv (E : Sys) (ord : Reorder) (now : Nat) (ty : String)
    (acc : KV × Bool) (h : String) (hinv : lgInv acc.1) :
    lgInv (learnHash E ord now ty acc h).1 := by
  unfold learnHash
  simp only []
  split
  · -- spam branch
    intro band l e d hb hd
    set target := if (learnBest E ord now acc.1 h).2 ≤ 70
      then (learnBest E ord now acc.1 h).1 else h with htgt
    rw [show ∀ (k : KV), (k.expireLgS now target E.cfg.localRetention).lgF = k.lgF from fun _ => rfl] at hb
    have hsub := foldSadd_lgF_sub now target E.cfg.localRetention
      (extractBands_6_3 target) (acc.1.incrLgS now target E.cfg.spamWeight) band l e hb d hd
    rw [expireLgS_isSome, foldSadd_lgS]
    rcases hsub with h1 | ⟨l0, e0, h2, h3⟩
    · rw [h1]
      exact incrLgS_isSome_self _ _ _ _
    · have : ((acc.1).lgS d).isSome := hinv band l0 e0 d h2 h3
      exact incrLgS_isSome_mono _ _ _ _ _ this
  · split
    · -- ham branch
      split
      · intro band l e d hb hd
        rw [expireLgS_isSome]
        have hb' : (acc.1).lgF band = some (l, e) := hb
        exact incrLgS_isSome_mono _ _ _ _ _ (hinv band l e d hb' hd)
      · exact hinv
    · exact hinv

end Guardian

namespace Guardian

theorem foldLearn_inv (E : Sys) (ord : Reorder) (now : Nat) (ty : String) :
    ∀ (hashes : List String) (acc : KV × Bool), lgInv acc.1 →
      lgInv (hashes.foldl (learnHash E ord now ty) acc).1 := by
  intro hashes
  induction hashes with
  | nil => intro acc h; exact h
  | cons hh rest ih =>
    intro acc h
    rw [List.foldl_cons]
    exact ih _ (learnHash_inv E ord now ty acc hh h)

theorem setRpt_inv (kv : KV) (now : Nat) (k : String) (h : lgInv kv) :
    lgInv (kv.setRpt now k) := h

theorem reportHandler_inv (E : Sys) (ord : Reorder) (kv : KV) (now : Nat)
    (mid ty : String) (h : lgInv kv) :
    lgInv (reportHandler E ord kv now mid ty).2.1 := by
  unfold reportHandler
  simp only []
  split
  · exact h
  · split
    · exact h
    · split
      · exact h
      · by_cases hg : ty = "spam" ∨ ty = "ham"
        · rw [if_pos hg]
          split
          · exact foldLearn_inv E ord now ty _ _ h
          · split
            · exact foldLearn_inv E ord now ty _ _ h
            · exact foldLearn_inv E ord now ty _ _ h
        · rw [if_neg hg]
          split
          · exact h
          · split
            · exact h
            · exact h

theorem foldOc_lg (now : Nat) (sig : String) (dur : Nat) :
    ∀ (bands : List String) (kv : KV),
      ((bands.foldl (fun k band => (k.saddOc now band sig).expireOc now band dur) kv).lgF = kv.lgF ∧
       (bands.foldl (fun k band => (k.saddOc now band sig).expireOc now band dur) kv).lgS = kv.lgS) := by
  intro bands
  induction bands with
  | nil => intro kv; exact ⟨rfl, rfl⟩
  | cons b rest ih =>
    intro kv
    rw [List.foldl_cons]
    rcases ih ((kv.saddOc now b sig).expireOc now b dur) with ⟨h1, h2⟩
    exact ⟨h1, h2⟩

theorem callOracle_lg (E : Sys) (kv : KV) (now : Nat) (sig : String) :
    (callOracleDecision E kv now sig).2.lgF = kv.lgF ∧
    (callOracleDecision E kv now sig).2.lgS = kv.lgS := by
  unfold callOracleDecision
  split
  · exact ⟨rfl, rfl⟩
  · split
    · exact ⟨rfl, rfl⟩
    · split
      · split
        · rcases foldOc_lg now sig 3600 (extractBands_6_3 sig)
            ((kv.setOracleCache sig _ (now + 3600))) with ⟨h1, h2⟩
          exact ⟨h1, h2⟩
        · exact ⟨rfl, rfl⟩
      · exact ⟨rfl, rfl⟩

theorem expireLgF_fst (kv : KV) (now : Nat) (b : String) (d : Nat) (b' : String) :
    ((kv.expireLgF now b d).lgF b').map Prod.fst = (kv.lgF b').map Prod.fst := by
  unfold KV.expireLgF setFun
  by_cases h : b' = b
  · subst h
    simp only [if_pos rfl]
    unfold expireEntry
    rcases kv.lgF b' with _ | ⟨l, e⟩
    · rfl
    · by_cases hl : liveAt now e = true
      · simp [hl]
      · simp [hl]
  · simp [h]

theorem foldExpire_lg (now : Nat) (dur : Nat) :
    ∀ (keys : List String) (kv : KV),
      ((keys.foldl (fun k b => k.expireLgF now b dur) kv).lgS = kv.lgS ∧
       ∀ b', ((keys.foldl (fun k b => k.expireLgF now b dur) kv).lgF b').map Prod.fst =
         (kv.lgF b').map Prod.fst) := by
  intro keys
  induction keys with
  | nil => intro kv; exact ⟨rfl, fun _ => rfl⟩
  | cons b rest ih =>
    intro kv
    rw [List.foldl_cons]
    rcases ih (kv.expireLgF now b dur) with ⟨h1, h2⟩
    refine ⟨h1, fun b' => ?_⟩
    rw [h2 b', expireLgF_fst]

theorem processRest_lg (E : Sys) (ord : Reorder) (kv : KV) (now : Nat) (sig : String)
    (thr soft : Nat) (mt : String) (res0 : AnalysisResult) :
    ((processRest E ord kv now sig thr soft mt res0).kvOut.lgS = kv.lgS ∧
     ∀ b', ((processRest E ord kv now sig thr soft mt res0).kvOut.lgF b').map Prod.fst =
       (kv.lgF b').map Prod.fst) := by
  unfold processRest
  simp only []
  split
  · exact ⟨rfl, fun _ => rfl⟩
  · split
    · split
      · rcases foldExpire_lg now E.cfg.localRetention _ kv with ⟨h1, h2⟩
        exact ⟨h1, h2⟩
      · rcases foldExpire_lg now E.cfg.localRetention _ kv with ⟨h1, h2⟩
        exact ⟨h1, h2⟩
    · split
      · split
        · rcases callOracle_lg E kv now sig with ⟨h1, h2⟩
          exact ⟨by rw [StepOut.kvOut, h2], fun b' => by rw [StepOut.kvOut, h1]⟩
        · rcases callOracle_lg E kv now sig with ⟨h1, h2⟩
          exact ⟨by rw [StepOut.kvOut, h2], fun b' => by rw [StepOut.kvOut, h1]⟩
      · exact ⟨rfl, fun _ => rfl⟩

theorem processSignature_lg (E : Sys) (ord : Reorder) (kv : KV) (now : Nat)
    (ts : TypedSignature) (res : AnalysisResult) :
    ((processSignature E ord kv now ts res).kvOut.lgS = kv.lgS ∧
     ∀ b', ((processSignature E ord kv now ts res).kvOut.lgF b').map Prod.fst =
       (kv.lgF b').map Prod.fst) := by
  unfold processSignature
  simp only []
  split
  · split
    · exact ⟨rfl, fun _ => rfl⟩
    · exact processRest_lg E ord kv now ts.hash _ _ _ res
  · exact processRest_lg E ord kv now ts.hash _ _ _ res

theorem analyzeLoop_lg (E : Sys) (ord : Reorder) (now : Nat) :
    ∀ (sigs : List TypedSignature) (res : AnalysisResult) (kv : KV),
      ((analyzeLoop E ord now sigs res kv).2.lgS = kv.lgS ∧
       ∀ b', ((analyzeLoop E ord now sigs res kv).2.lgF b').map Prod.fst =
         (kv.lgF b').map Prod.fst) := by
  intro sigs
  induction sigs with
  | nil => intro res kv; exact ⟨rfl, fun _ => rfl⟩
  | cons ts rest ih =>
    intro res kv
    rw [analyzeLoop]
    rcases hps : processSignature E ord kv now ts res with ⟨r, k⟩ | ⟨r, k⟩
    · simp only []
      have := processSignature_lg E ord kv now ts res
      rw [hps] at this
      exact this
    · simp only []
      have hframe := processSignature_lg E ord kv now ts res
      rw [hps] at hframe
      by_cases hsp : r.action = "spam"
      · rw [if_pos hsp]
        exact hframe
      · rw [if_neg hsp]
        rcases ih r k with ⟨h1, h2⟩
        exact ⟨by rw [h1]; exact hframe.1, fun b' => by rw [h2 b']; exact hframe.2 b'⟩

theorem lgInv_of_frames (kv kv' : KV)
    (h1 : kv'.lgS = kv.lgS)
    (h2 : ∀ b', (kv'.lgF b').map Prod.fst = (kv.lgF b').map Prod.fst)
    (h : lgInv kv) : lgInv kv' := by
  intro band l e d hb hd
  have hm := h2 band
  rw [hb] at hm
  rcases hk : kv.lgF band with _ | ⟨l0, e0⟩
  · rw [hk] at hm; simp at hm
  · rw [hk] at hm
    simp at hm
    rw [h1]
    exact h band l0 e0 d hk (by rw [← hm]; exact hd)

theorem analyzeHandler_inv (E : Sys) (ord : Reorder) (kv : KV) (now : Nat)
    (env : Envelope) (h : lgInv kv) :
    lgInv (analyzeHandler E ord kv now env).2 := by
  have main : ∀ (tsigs : List TypedSignature) (kv1 : KV), lgInv kv1 →
      lgInv (analyzeLoop E ord now tsigs { action := "allow", proximityMatch := false } kv1).2 := by
    intro tsigs kv1 h1
    rcases analyzeLoop_lg E ord now tsigs { action := "allow", proximityMatch := false } kv1
      with ⟨h2, h3⟩
    exact lgInv_of_frames _ _ h2 h3 h1
  unfold analyzeHandler
  simp only []
  split
  · exact h
  · apply main
    split
    · exact h
    · exact h

theorem runEvents_inv (E : Sys) (ord : Reorder) (events : List Event) :
    lgInv (runEvents E ord events) := by
  have hstep : ∀ (kv : KV) (ev : Event), lgInv kv → lgInv (stepEvent E ord kv ev) := by
    intro kv ev h
    cases ev with
    | analyze now env => exact analyzeHandler_inv E ord kv now env h
    | report now mid ty => exact reportHandler_inv E ord kv now mid ty h
  have hempty : lgInv emptyKV := by
    intro band l e d hb hd
    simp [emptyKV] at hb
  have hfold : ∀ (evs : List Event) (kv : KV), lgInv kv →
      lgInv (evs.foldl (stepEvent E ord) kv) := by
    intro evs
    induction evs with
    | nil => intro kv h; exact h
    | cons ev rest ih =>
      intro kv h
      rw [List.foldl_cons]
      exact ih _ (hstep kv ev h)
  exact hfold events emptyKV hempty

theorem layer3Scan_nonpositive (kv : KV) (now thr soft : Nat) (mt : String)
    (hscore : ∀ d, (liveVal now (kv.lgS d)).getD 0 ≤ 0) :
    ∀ (l : List (String × Nat)) (res : AnalysisResult),
      layer3Scan kv now thr soft mt l res = (false, res) := by
  intro l
  induction l with
  | nil => intro res; rfl
  | cons p rest ih =>
    intro res
    rw [layer3Scan]
    simp only []
    have hs : ¬((liveVal now (kv.lgS p.1)).getD 0 > 0) := by
      have := hscore p.1; omega
    by_cases h1 : p.2 ≤ thr
    · rw [if_pos h1, if_neg hs]
      exact ih res
    · rw [if_neg h1]
      by_cases h2 : p.2 ≤ soft
      · rw [if_pos h2]
        have hc : ¬((liveVal now (kv.lgS p.1)).getD 0 > 0 ∧ res.action ≠ "spam") :=
          fun hc => hs hc.1
        rw [if_neg hc]
        exact ih res
      · rw [if_neg h2]
        exact ih res

theorem lgScan_nonpositive (E : Sys) (ord : Reorder) (kv1 : KV) (now : Nat) (sig : String)
    (thr soft : Nat) (mt : String) (res1 : AnalysisResult) (lgKeys : List String)
    (hscore : ∀ d, (liveVal now (kv1.lgS d)).getD 0 ≤ 0) :
    lgScan E ord kv1 now sig thr soft mt res1 lgKeys = (false, res1) := by
  unfold lgScan
  simp only []
  split
  · split
    · exact layer3Scan_nonpositive kv1 now thr soft mt hscore _ res1
    · rfl
  · rfl

theorem processRest_nonpositive (E : Sys) (ord : Reorder) (kv : KV) (now : Nat)
    (sig : String) (thr soft : Nat) (mt : String) (res0 r' : AnalysisResult) (kv' : KV)
    (hscore : ∀ d, (liveVal now (kv.lgS d)).getD 0 ≤ 0)
    (hstep : processRest E ord kv now sig thr soft mt res0 = .nextSig r' kv') :
    (r'.action = res0.action ∨ r'.action = "soft_spam") ∧
    (4 ≤ (ord ((extractBands_6_3 sig).filter
        (fun b => (liveVal now (kv.lgF b)).isSome))).length →
      r'.proximityMatch = true) := by
  have hscore' : ∀ (keys : List String) (d : String),
      (liveVal now (((keys.foldl (fun k b => k.expireLgF now b E.cfg.localRetention) kv)).lgS d)).getD 0 ≤ 0 := by
    intro keys d
    rw [(foldExpire_lg now E.cfg.localRetention keys kv).1]
    exact hscore d
  have hlg : ∀ (keys : List String) (res1 : AnalysisResult),
      lgScan E ord (keys.foldl (fun k b => k.expireLgF now b E.cfg.localRetention) kv)
        now sig thr soft mt res1 keys = (false, res1) :=
    fun keys res1 => lgScan_nonpositive E ord _ now sig thr soft mt res1 keys (hscore' keys)
  unfold processRest at hstep
  simp only [] at hstep
  split at hstep
  case _ r heq => exact absurd hstep (by simp)
  case _ res1 heq =>
    have hres1 : res1.action = res0.action ∨ res1.action = "soft_spam" := by
      split at heq
      · exact ocScan_none _ _ _ _ _ _ _ _ _ _ _ heq
      · simp at heq; left; rw [← heq]
    split at hstep
    · rename_i hlg4
      split at hstep
      · rename_i htrue
        rw [hlg _ res1] at htrue
        simp at htrue
      · rename_i hfalse
        rw [hlg _ res1] at hstep
        injection hstep with h1 h2
        constructor
        · rcases hres1 with h | h
          · left; rw [← h1]; exact h
          · right; rw [← h1]; exact h
        · intro _
          rw [← h1]
    · rename_i hlgneg
      split at hstep
      · split at hstep
        · exact absurd hstep (by simp)
        · injection hstep with h1 h2
          constructor
          · rcases hres1 with h | h
            · left; rw [← h1]; exact h
            · right; rw [← h1]; exact h
          · intro hx; exact absurd hx hlgneg
      · injection hstep with h1 h2
        constructor
        · rw [← h1]; exact hres1
        · intro hx; exact absurd hx hlgneg

set_option maxRecDepth 100000 in
/-- Claim C4 (counterexample): the claim promises that a band member has
its score counter *within TTL*.  On the reachable trace `eventsC4` (analyze,
spam report at t = 10, analyze at t = 20) the spam report gives both
`lg_s:digA` and the `lg_f` bands the local-retention TTL, but the second
analyze refreshes only the matched band keys; observed at t = 1296015 the
band `1:67AAAA` still lists `digA` live while `lg_s:digA` is expired. -/
theorem C4_counterexample :
    digA ∈ (liveVal 1296015 ((runEvents sysA ordId eventsC4).lgF "1:67AAAA")).getD [] ∧
    liveVal 1296015 ((runEvents sysA ordId eventsC4).lgS digA) = none := by decide

/-- Claim C4 (amended): (1) in every state reachable from the empty store
by analyze/report operations, a digest recorded in some `lg_f:` band set
has an `lg_s:` entry in the raw store — live or expired, the within-TTL
strengthening being refuted by the counterexample; (2) when every live
score is ≤ 0 the Layer-3 candidate scan emits nothing (it returns its
input result unchanged, in particular never a local spam verdict); (3) a
signature that reaches the ≥4-matching-band local branch and falls through
to the next-signature label under such scores keeps a non-spam action and
carries `proximity_match = true`. -/
theorem C4_learning_invariant_amended :
    (∀ (E : Sys) (ord : Reorder) (events : List Event),
       lgInv (runEvents E ord events)) ∧
    (∀ (kv : KV) (now thr soft : Nat) (mt : String) (l : List (String × Nat))
       (res : AnalysisResult),
       (∀ d, (liveVal now (kv.lgS d)).getD 0 ≤ 0) →
       layer3Scan kv now thr soft mt l res = (false, res)) ∧
    (∀ (E : Sys) (ord : Reorder) (kv : KV) (now : Nat) (sig : String)
       (thr soft : Nat) (mt : String) (res0 r' : AnalysisResult) (kv' : KV),
       (∀ d, (liveVal now (kv.lgS d)).getD 0 ≤ 0) →
       processRest E ord kv now sig thr soft mt res0 = .nextSig r' kv' →
       (r'.action = res0.action ∨ r'.action = "soft_spam") ∧
       (4 ≤ (ord ((extractBands_6_3 sig).filter
           (fun b => (liveVal now (kv.lgF b)).isSome))).length →
         r'.proximityMatch = true)) :=
  ⟨fun E ord events => runEvents_inv E ord events,
   fun kv now thr soft mt l res h => layer3Scan_nonpositive kv now thr soft mt h l res,
   fun E ord kv now sig thr soft mt res0 r' kv' h hstep =>
     processRest_nonpositive E ord kv now sig thr soft mt res0 r' kv' h hstep⟩

set_option maxRecDepth 100000 in
theorem C4_learning_invariant_amended_witness :
    ((runEvents sysA ordId eventsC4).lgS digA).isSome = true ∧
    layer3Scan kvNeg 5 70 82 "attachment" [(digA, 0)]
        { action := "allow", proximityMatch := false } =
      (false, { action := "allow", proximityMatch := false }) ∧
    (processRest sysA ordId kvNeg 5 digA 70 82 "attachment"
        { action := "allow", proximityMatch := false }).res.proximityMatch = true := by
  rcases C4_learning_invariant_amended with ⟨h1, h2, h3⟩
  have hscore : ∀ d, (liveVal 5 (kvNeg.lgS d)).getD 0 ≤ 0 := by
    intro d
    by_cases h : d = digA
    · simp [kvNeg, h, liveVal, liveAt]
    · simp [kvNeg, h, liveVal]
  refine ⟨?_, ?_, ?_⟩
  · exact h1 sysA ordId eventsC4 "1:67AAAA" [digA] (some 1296020) digA (by decide) (by decide)
  · exact h2 kvNeg 5 70 82 "attachment" [(digA, 0)]
      { action := "allow", proximityMatch := false } hscore
  · have hnext : (processRest sysA ordId kvNeg 5 digA 70 82 "attachment"
        { action := "allow", proximityMatch := false }).isNext = true := by decide
    have hstep := isNext_eq _ hnext
    exact (h3 sysA ordId kvNeg 5 digA 70 82 "attachment"
        { action := "allow", proximityMatch := false } _ _ hscore hstep).2 (by decide)

/-! ## Order-independence infrastructure (claim C9) -/

theorem perm_any_eq {α : Type} {l₁ l₂ : List α} (f : α → Bool) (h : List.Perm l₁ l₂) :
    l₁.any f = l₂.any f := by
  rw [Bool.eq_iff_iff, List.any_eq_true, List.any_eq_true]
  constructor <;> rintro ⟨x, hx, hfx⟩
  · exact ⟨x, h.mem_iff.mp hx, hfx⟩
  · exact ⟨x, h.mem_iff.mpr hx, hfx⟩

theorem expireEntry_idem {α : Type} (now dur : Nat) (x : Option (α × Expiry)) :
    expireEntry now dur (expireEntry now dur x) = expireEntry now dur x := by
  rcases x with _ | ⟨v, e⟩
  · rfl
  · simp only [expireEntry]
    by_cases h : liveAt now e = true
    · rw [if_pos h]
      simp only [expireEntry, ite_self]
    · rw [if_neg h]
      simp only [expireEntry]
      rw [if_neg h]

theorem KV.eq_of_fields (kv₁ kv₂ : KV)
    (h1 : kv₁.miF = kv₂.miF) (h2 : kv₁.lgF = kv₂.lgF) (h3 : kv₁.lgS = kv₂.lgS)
    (h4 : kv₁.ocF = kv₂.ocF) (h5 : kv₁.oracleCache = kv₂.oracleCache)
    (h6 : kv₁.rpt = kv₂.rpt) (h7 : kv₁.msgs = kv₂.msgs)
    (h8 : kv₁.wlDomain = kv₂.wlDomain) (h9 : kv₁.wlEmail = kv₂.wlEmail) : kv₁ = kv₂ := by
  cases kv₁; cases kv₂; simp_all

theorem foldExpire_eq (now dur : Nat) :
    ∀ (keys : List String) (kv : KV),
      keys.foldl (fun k b => k.expireLgF now b dur) kv =
        { kv with lgF := fun b' =>
            if b' ∈ keys then expireEntry now dur (kv.lgF b') else kv.lgF b' } := by
  intro keys
  induction keys with
  | nil =>
    intro kv
    cases kv
    simp
  | cons b rest ih =>
    intro kv
    rw [List.foldl_cons, ih]
    refine KV.eq_of_fields _ _ rfl ?_ rfl rfl rfl rfl rfl rfl rfl
    funext b'
    show (if b' ∈ rest then expireEntry now dur ((kv.expireLgF now b dur).lgF b')
          else (kv.expireLgF now b dur).lgF b') =
         (if b' ∈ b :: rest then expireEntry now dur (kv.lgF b') else kv.lgF b')
    have hproj : (kv.expireLgF now b dur).lgF b' =
        if b' = b then expireEntry now dur (kv.lgF b) else kv.lgF b' := rfl
    rw [hproj]
    by_cases h1 : b' = b
    · subst h1
      rw [if_pos rfl, if_pos (List.mem_cons_self b' rest)]
      by_cases h2 : b' ∈ rest
      · rw [if_pos h2, expireEntry_idem]
      · rw [if_neg h2]
    · rw [if_neg h1]
      by_cases h2 : b' ∈ rest
      · rw [if_pos h2, if_pos (List.mem_cons_of_mem b h2)]
      · rw [if_neg h2, if_neg (by simp [h1, h2])]

theorem foldExpire_eq_of_perm (now dur : Nat) (keys₁ keys₂ : List String) (kv : KV)
    (hp : List.Perm keys₁ keys₂) :
    keys₁.foldl (fun k b => k.expireLgF now b dur) kv =
    keys₂.foldl (fun k b => k.expireLgF now b dur) kv := by
  rw [foldExpire_eq, foldExpire_eq]
  refine KV.eq_of_fields _ _ rfl ?_ rfl rfl rfl rfl rfl rfl rfl
  funext b'
  simp only []
  by_cases h : b' ∈ keys₁
  · rw [if_pos h, if_pos (hp.mem_iff.mp h)]
  · rw [if_neg h, if_neg (fun hc => h (hp.mem_iff.mpr hc))]

theorem gatherMembers_perm (ord₁ ord₂ : Reorder)
    (h₁ : ∀ l, List.Perm (ord₁ l) l) (h₂ : ∀ l, List.Perm (ord₂ l) l)
    (f : String → Option (List String × Expiry)) (now : Nat)
    (keys₁ keys₂ : List String) (hp : List.Perm keys₁ keys₂) :
    List.Perm (gatherMembers ord₁ f now keys₁) (gatherMembers ord₂ f now keys₂) := by
  unfold gatherMembers
  exact (h₁ _).trans (((hp.flatMap_right _).dedup).trans (h₂ _).symm)

theorem layer2Scan_fst_any (thr soft : Nat) (mt : String) :
    ∀ (l : List (String × Nat)) (res : AnalysisResult),
      (layer2Scan thr soft mt l res).1.isSome = l.any (fun p => decide (p.2 ≤ thr)) := by
  intro l
  induction l with
  | nil => intro res; rfl
  | cons p rest ih =>
    intro res
    rw [layer2Scan]
    rw [List.any_cons]
    by_cases h1 : p.2 ≤ thr
    · rw [if_pos h1]
      simp [h1]
    · rw [if_neg h1]
      by_cases h2 : p.2 ≤ soft
      · rw [if_pos h2, ih]
        simp [h1]
      · rw [if_neg h2, ih]
        simp [h1]

theorem layer2Scan_some_action (thr soft : Nat) (mt : String) :
    ∀ (l : List (String × Nat)) (res r : AnalysisResult),
      (layer2Scan thr soft mt l res).1 = some r → r.action = "spam" := by
  intro l
  induction l with
  | nil => intro res r h; simp [layer2Scan] at h
  | cons p rest ih =>
    intro res r h
    rw [layer2Scan] at h
    by_cases h1 : p.2 ≤ thr
    · rw [if_pos h1] at h
      rw [← Option.some.inj h]
    · rw [if_neg h1] at h
      by_cases h2 : p.2 ≤ soft
      · rw [if_pos h2] at h
        exact ih _ _ h
      · rw [if_neg h2] at h
        exact ih _ _ h

theorem layer2Scan_none_action (thr soft : Nat) (mt : String) :
    ∀ (l : List (String × Nat)) (res : AnalysisResult),
      l.any (fun p => decide (p.2 ≤ thr)) = false → res.action ≠ "spam" →
      (layer2Scan thr soft mt l res).2.action =
        (if l.any (fun p => decide (p.2 ≤ soft)) = true then "soft_spam" else res.action) := by
  intro l
  induction l with
  | nil => intro res _ _; simp [layer2Scan]
  | cons p rest ih =>
    intro res hany hres
    rw [List.any_cons] at hany
    rcases Bool.or_eq_false_iff.mp hany with ⟨hhead, hrest⟩
    have h1 : ¬(p.2 ≤ thr) := of_decide_eq_false hhead
    rw [layer2Scan]
    rw [List.any_cons, if_neg h1]
    by_cases h2 : p.2 ≤ soft
    · rw [if_pos h2, if_pos hres, ih _ hrest (by show ("soft_spam" : String) ≠ "spam"; decide)]
      have hh : (decide (p.2 ≤ soft) || rest.any (fun p => decide (p.2 ≤ soft))) = true := by
        simp [h2]
      rw [hh, if_pos rfl]
      split <;> rfl
    · rw [if_neg h2, ih res hrest hres]
      have hh : decide (p.2 ≤ soft) = false := decide_eq_false h2
      rw [hh, Bool.false_or]

theorem layer3Scan_fst_any (kv : KV) (now thr soft : Nat) (mt : String) :
    ∀ (l : List (String × Nat)) (res : AnalysisResult),
      (layer3Scan kv now thr soft mt l res).1 =
        l.any (fun p => decide (p.2 ≤ thr) &&
          decide ((liveVal now (kv.lgS p.1)).getD 0 > 0)) := by
  intro l
  induction l with
  | nil => intro res; rfl
  | cons p rest ih =>
    intro res
    rw [layer3Scan]
    simp only []
    rw [List.any_cons]
    by_cases h1 : p.2 ≤ thr
    · rw [if_pos h1]
      by_cases h2 : (liveVal now (kv.lgS p.1)).getD 0 > 0
      · rw [if_pos h2]
        simp [h1, h2]
      · rw [if_neg h2, ih]
        simp [h1, h2]
    · rw [if_neg h1]
      by_cases h2 : p.2 ≤ soft
      · rw [if_pos h2, ih]
        simp [h1]
      · rw [if_neg h2, ih]
        simp [h1]

theorem layer3Scan_false_action (kv : KV) (now thr soft : Nat) (mt : String) :
    ∀ (l : List (String × Nat)) (res : AnalysisResult),
      l.any (fun p => decide (p.2 ≤ thr) &&
        decide ((liveVal now (kv.lgS p.1)).getD 0 > 0)) = false →
      res.action ≠ "spam" →
      (layer3Scan kv now thr soft mt l res).2.action =
        (if l.any (fun p => decide (¬(p.2 ≤ thr)) && decide (p.2 ≤ soft) &&
              decide ((liveVal now (kv.lgS p.1)).getD 0 > 0)) = true then "soft_spam"
         else res.action) := by
  intro l
  induction l with
  | nil => intro res _ _; simp [layer3Scan]
  | cons p rest ih =>
    intro res hany hres
    rw [List.any_cons] at hany
    rcases Bool.or_eq_false_iff.mp hany with ⟨hhead, hrest⟩
    rw [layer3Scan]
    simp only []
    rw [List.any_cons]
    by_cases h1 : p.2 ≤ thr
    · have h2 : ¬((liveVal now (kv.lgS p.1)).getD 0 > 0) := by
        intro hc
        rw [decide_eq_true h1, decide_eq_true hc] at hhead
        simp at hhead
      rw [if_pos h1, if_neg h2, ih res hrest hres]
      have hh : (decide (¬(p.2 ≤ thr)) && decide (p.2 ≤ soft) &&
          decide ((liveVal now (kv.lgS p.1)).getD 0 > 0)) = false := by
        simp [h1]
      rw [hh, Bool.false_or]
    · rw [if_neg h1]
      by_cases h2 : p.2 ≤ soft
      · by_cases h3 : (liveVal now (kv.lgS p.1)).getD 0 > 0
        · rw [if_pos h2, if_pos (And.intro h3 hres), ih _ hrest (by show ("soft_spam" : String) ≠ "spam"; decide)]
          have hh : (decide (¬(p.2 ≤ thr)) && decide (p.2 ≤ soft) &&
              decide ((liveVal now (kv.lgS p.1)).getD 0 > 0)) = true := by
            simp [h1, h2, h3]
          rw [hh, Bool.true_or, if_pos rfl]
          split <;> rfl
        · rw [if_pos h2, if_neg (fun hc => h3 hc.1), ih res hrest hres]
          have hh : (decide (¬(p.2 ≤ thr)) && decide (p.2 ≤ soft) &&
              decide ((liveVal now (kv.lgS p.1)).getD 0 > 0)) = false := by
            simp [h3]
          rw [hh, Bool.false_or]
      · rw [if_neg h2, ih res hrest hres]
        have hh : (decide (¬(p.2 ≤ thr)) && decide (p.2 ≤ soft) &&
            decide ((liveVal now (kv.lgS p.1)).getD 0 > 0)) = false := by
          simp [h2]
        rw [hh, Bool.false_or]


theorem ocScan_some_action (E : Sys) (ord : Reorder) (kv : KV) (now : Nat) (sig : String)
    (thr soft : Nat) (mt : String) (res : AnalysisResult) (ocKeys : List String)
    (r : AnalysisResult)
    (h : (ocScan E ord kv now sig thr soft mt res ocKeys).1 = some r) :
    r.action = "spam" := by
  unfold ocScan at h
  simp only [] at h
  split at h
  · split at h
    · exact layer2Scan_some_action _ _ _ _ _ _ h
    · simp at h
  · simp at h

theorem layer2Scan_congr_perm (thr soft : Nat) (mt : String)
    (l₁ l₂ : List (String × Nat)) (hd : List.Perm l₁ l₂)
    (res₁ res₂ : AnalysisResult) (hact : res₁.action = res₂.action)
    (hnsp : res₁.action ≠ "spam") :
    ((layer2Scan thr soft mt l₁ res₁).1.isSome =
      (layer2Scan thr soft mt l₂ res₂).1.isSome) ∧
    ((layer2Scan thr soft mt l₁ res₁).1 = none →
      (layer2Scan thr soft mt l₂ res₂).1 = none →
      ((layer2Scan thr soft mt l₁ res₁).2.action =
        (layer2Scan thr soft mt l₂ res₂).2.action ∧
       (layer2Scan thr soft mt l₁ res₁).2.action ≠ "spam")) := by
  have hnsp₂ : res₂.action ≠ "spam" := hact ▸ hnsp
  have hsome : (layer2Scan thr soft mt l₁ res₁).1.isSome =
      (layer2Scan thr soft mt l₂ res₂).1.isSome := by
    rw [layer2Scan_fst_any, layer2Scan_fst_any]
    exact perm_any_eq _ hd
  refine ⟨hsome, fun hn₁ hn₂ => ?_⟩
  have ha₁ : l₁.any (fun p => decide (p.2 ≤ thr)) = false := by
    have h0 := layer2Scan_fst_any thr soft mt l₁ res₁
    rw [hn₁] at h0
    exact h0.symm
  have ha₂ : l₂.any (fun p => decide (p.2 ≤ thr)) = false := by
    have h0 := layer2Scan_fst_any thr soft mt l₂ res₂
    rw [hn₂] at h0
    exact h0.symm
  rw [layer2Scan_none_action thr soft mt l₁ res₁ ha₁ hnsp,
      layer2Scan_none_action thr soft mt l₂ res₂ ha₂ hnsp₂]
  constructor
  · rw [hact, perm_any_eq (fun p => decide (p.2 ≤ soft)) hd]
  · split
    · show ("soft_spam" : String) ≠ "spam"
      decide
    · exact hnsp

theorem layer3Scan_congr_perm (kv1 : KV) (now thr soft : Nat) (mt : String)
    (l₁ l₂ : List (String × Nat)) (hd : List.Perm l₁ l₂)
    (res₁ res₂ : AnalysisResult) (hact : res₁.action = res₂.action)
    (hnsp : res₁.action ≠ "spam") :
    ((layer3Scan kv1 now thr soft mt l₁ res₁).1 =
      (layer3Scan kv1 now thr soft mt l₂ res₂).1) ∧
    ((layer3Scan kv1 now thr soft mt l₁ res₁).2.action =
      (layer3Scan kv1 now thr soft mt l₂ res₂).2.action) := by
  have hnsp₂ : res₂.action ≠ "spam" := hact ▸ hnsp
  have hflag : (layer3Scan kv1 now thr soft mt l₁ res₁).1 =
      (layer3Scan kv1 now thr soft mt l₂ res₂).1 := by
    rw [layer3Scan_fst_any, layer3Scan_fst_any]
    exact perm_any_eq _ hd
  refine ⟨hflag, ?_⟩
  by_cases hf : (layer3Scan kv1 now thr soft mt l₁ res₁).1 = true
  · have hf₂ : (layer3Scan kv1 now thr soft mt l₂ res₂).1 = true := by
      rw [← hflag]
      exact hf
    rcases e₁ : layer3Scan kv1 now thr soft mt l₁ res₁ with ⟨b₁, r₁⟩
    rcases e₂ : layer3Scan kv1 now thr soft mt l₂ res₂ with ⟨b₂, r₂⟩
    rw [e₁] at hf
    rw [e₂] at hf₂
    have hb₁ : b₁ = true := hf
    have hb₂ : b₂ = true := hf₂
    subst hb₁
    subst hb₂
    have hs₁ := (layer3Scan_spam kv1 now thr soft mt l₁ res₁ r₁ e₁).1
    have hs₂ := (layer3Scan_spam kv1 now thr soft mt l₂ res₂ r₂ e₂).1
    show r₁.action = r₂.action
    rw [hs₁, hs₂]
  · have hf₂ : ¬((layer3Scan kv1 now thr soft mt l₂ res₂).1 = true) := by
      rw [← hflag]
      exact hf
    rw [Bool.not_eq_true] at hf hf₂
    have ha₁ : l₁.any (fun p => decide (p.2 ≤ thr) &&
        decide ((liveVal now (kv1.lgS p.1)).getD 0 > 0)) = false := by
      rw [← layer3Scan_fst_any kv1 now thr soft mt l₁ res₁]
      exact hf
    have ha₂ : l₂.any (fun p => decide (p.2 ≤ thr) &&
        decide ((liveVal now (kv1.lgS p.1)).getD 0 > 0)) = false := by
      rw [← layer3Scan_fst_any kv1 now thr soft mt l₂ res₂]
      exact hf₂
    rw [layer3Scan_false_action kv1 now thr soft mt l₁ res₁ ha₁ hnsp,
        layer3Scan_false_action kv1 now thr soft mt l₂ res₂ ha₂ hnsp₂]
    rw [hact, perm_any_eq (fun p => decide (¬(p.2 ≤ thr)) && decide (p.2 ≤ soft) &&
      decide ((liveVal now (kv1.lgS p.1)).getD 0 > 0)) hd]

theorem ocScan_congr (E : Sys) (ord₁ ord₂ : Reorder)
    (h₁ : ∀ l, List.Perm (ord₁ l) l) (h₂ : ∀ l, List.Perm (ord₂ l) l)
    (kv : KV) (now : Nat) (sig : String) (thr soft : Nat) (mt : String)
    (res₁ res₂ : AnalysisResult) (ocKeys₁ ocKeys₂ : List String)
    (hkeys : List.Perm ocKeys₁ ocKeys₂)
    (hact : res₁.action = res₂.action) (hnsp : res₁.action ≠ "spam") :
    ((ocScan E ord₁ kv now sig thr soft mt res₁ ocKeys₁).1.isSome =
      (ocScan E ord₂ kv now sig thr soft mt res₂ ocKeys₂).1.isSome) ∧
    ((ocScan E ord₁ kv now sig thr soft mt res₁ ocKeys₁).1 = none →
      (ocScan E ord₂ kv now sig thr soft mt res₂ ocKeys₂).1 = none →
      ((ocScan E ord₁ kv now sig thr soft mt res₁ ocKeys₁).2.action =
        (ocScan E ord₂ kv now sig thr soft mt res₂ ocKeys₂).2.action ∧
       (ocScan E ord₁ kv now sig thr soft mt res₁ ocKeys₁).2.action ≠ "spam")) := by
  have hperm : List.Perm (gatherMembers ord₁ kv.ocF now ocKeys₁)
      (gatherMembers ord₂ kv.ocF now ocKeys₂) :=
    gatherMembers_perm ord₁ ord₂ h₁ h₂ kv.ocF now ocKeys₁ ocKeys₂ hkeys
  unfold ocScan
  simp only []
  by_cases hne : gatherMembers ord₁ kv.ocF now ocKeys₁ ≠ []
  · have hne₂ : gatherMembers ord₂ kv.ocF now ocKeys₂ ≠ [] := by
      intro hc
      rw [hc] at hperm
      exact hne hperm.eq_nil
    rw [if_pos hne, if_pos hne₂]
    unfold computeDistanceBatch
    simp only []
    by_cases hp : E.lib.parses (trimT1 sig) = true
    · rw [if_pos hp, if_pos hp]
      simp only []
      exact layer2Scan_congr_perm thr soft mt _ _ (hperm.filterMap _) res₁ res₂ hact hnsp
    · rw [if_neg hp, if_neg hp]
      exact ⟨rfl, fun _ _ => ⟨hact, hnsp⟩⟩
  · have hne₂ : ¬(gatherMembers ord₂ kv.ocF now ocKeys₂ ≠ []) := by
      intro hc
      exact hne (fun hc2 => hc (by rw [hc2] at hperm; exact hperm.symm.eq_nil))
    rw [if_neg hne, if_neg hne₂]
    exact ⟨rfl, fun _ _ => ⟨hact, hnsp⟩⟩

theorem lgScan_congr (E : Sys) (ord₁ ord₂ : Reorder)
    (h₁ : ∀ l, List.Perm (ord₁ l) l) (h₂ : ∀ l, List.Perm (ord₂ l) l)
    (kv1 : KV) (now : Nat) (sig : String) (thr soft : Nat) (mt : String)
    (res₁ res₂ : AnalysisResult) (lgKeys₁ lgKeys₂ : List String)
    (hkeys : List.Perm lgKeys₁ lgKeys₂)
    (hact : res₁.action = res₂.action) (hnsp : res₁.action ≠ "spam") :
    ((lgScan E ord₁ kv1 now sig thr soft mt res₁ lgKeys₁).1 =
      (lgScan E ord₂ kv1 now sig thr soft mt res₂ lgKeys₂).1) ∧
    ((lgScan E ord₁ kv1 now sig thr soft mt res₁ lgKeys₁).2.action =
      (lgScan E ord₂ kv1 now sig thr soft mt res₂ lgKeys₂).2.action) := by
  have hperm : List.Perm (gatherMembers ord₁ kv1.lgF now lgKeys₁)
      (gatherMembers ord₂ kv1.lgF now lgKeys₂) :=
    gatherMembers_perm ord₁ ord₂ h₁ h₂ kv1.lgF now lgKeys₁ lgKeys₂ hkeys
  unfold lgScan
  simp only []
  by_cases hne : gatherMembers ord₁ kv1.lgF now lgKeys₁ ≠ []
  · have hne₂ : gatherMembers ord₂ kv1.lgF now lgKeys₂ ≠ [] := by
      intro hc
      rw [hc] at hperm
      exact hne hperm.eq_nil
    rw [if_pos hne, if_pos hne₂]
    unfold computeDistanceBatch
    simp only []
    by_cases hp : E.lib.parses (trimT1 sig) = true
    · rw [if_pos hp, if_pos hp]
      simp only []
      exact layer3Scan_congr_perm kv1 now thr soft mt _ _ (hperm.filterMap _) res₁ res₂ hact hnsp
    · rw [if_neg hp, if_neg hp]
      exact ⟨rfl, hact⟩
  · have hne₂ : ¬(gatherMembers ord₂ kv1.lgF now lgKeys₂ ≠ []) := by
      intro hc
      exact hne (fun hc2 => hc (by rw [hc2] at hperm; exact hperm.symm.eq_nil))
    rw [if_neg hne, if_neg hne₂]
    exact ⟨rfl, hact⟩

theorem processRest_congr (E : Sys) (ord₁ ord₂ : Reorder)
    (h₁ : ∀ l, List.Perm (ord₁ l) l) (h₂ : ∀ l, List.Perm (ord₂ l) l)
    (kv : KV) (now : Nat) (sig : String) (thr soft : Nat) (mt : String)
    (res₁ res₂ : AnalysisResult)
    (hact : res₁.action = res₂.action) (hnsp : res₁.action ≠ "spam") :
    ((processRest E ord₁ kv now sig thr soft mt res₁).isNext =
      (processRest E ord₂ kv now sig thr soft mt res₂).isNext) ∧
    ((processRest E ord₁ kv now sig thr soft mt res₁).res.action =
      (processRest E ord₂ kv now sig thr soft mt res₂).res.action) ∧
    ((processRest E ord₁ kv now sig thr soft mt res₁).kvOut =
      (processRest E ord₂ kv now sig thr soft mt res₂).kvOut) := by
  unfold processRest
  simp only []
  by_cases hc₁ : 4 ≤ (ord₁ ((extractBands_6_3 sig).filter (fun b => (liveVal now (kv.ocF b)).isSome))).length
  · have hc₂ : 4 ≤ (ord₂ ((extractBands_6_3 sig).filter (fun b => (liveVal now (kv.ocF b)).isSome))).length := by
      rw [(h₂ ((extractBands_6_3 sig).filter (fun b => (liveVal now (kv.ocF b)).isSome))).length_eq]
      rw [(h₁ ((extractBands_6_3 sig).filter (fun b => (liveVal now (kv.ocF b)).isSome))).length_eq] at hc₁
      exact hc₁
    rw [if_pos hc₁, if_pos hc₂]
    have hkoc : List.Perm (ord₁ ((extractBands_6_3 sig).filter (fun b => (liveVal now (kv.ocF b)).isSome))) (ord₂ ((extractBands_6_3 sig).filter (fun b => (liveVal now (kv.ocF b)).isSome))) := (h₁ ((extractBands_6_3 sig).filter (fun b => (liveVal now (kv.ocF b)).isSome))).trans (h₂ ((extractBands_6_3 sig).filter (fun b => (liveVal now (kv.ocF b)).isSome))).symm
    have hoc := ocScan_congr E ord₁ ord₂ h₁ h₂ kv now sig thr soft mt res₁ res₂
      (ord₁ ((extractBands_6_3 sig).filter (fun b => (liveVal now (kv.ocF b)).isSome))) (ord₂ ((extractBands_6_3 sig).filter (fun b => (liveVal now (kv.ocF b)).isSome))) hkoc hact hnsp
    rcases eo₁ : ocScan E ord₁ kv now sig thr soft mt res₁ (ord₁ ((extractBands_6_3 sig).filter (fun b => (liveVal now (kv.ocF b)).isSome))) with ⟨o₁, rr₁⟩
    rcases eo₂ : ocScan E ord₂ kv now sig thr soft mt res₂ (ord₂ ((extractBands_6_3 sig).filter (fun b => (liveVal now (kv.ocF b)).isSome))) with ⟨o₂, rr₂⟩
    rw [eo₁, eo₂] at hoc
    cases o₁ with
    | some r₁ =>
      cases o₂ with
      | some r₂ =>
        simp only []
        refine ⟨rfl, ?_, rfl⟩
        have hs₁ : r₁.action = "spam" :=
          ocScan_some_action E ord₁ kv now sig thr soft mt res₁ (ord₁ ((extractBands_6_3 sig).filter (fun b => (liveVal now (kv.ocF b)).isSome))) r₁
            (by rw [eo₁])
        have hs₂ : r₂.action = "spam" :=
          ocScan_some_action E ord₂ kv now sig thr soft mt res₂ (ord₂ ((extractBands_6_3 sig).filter (fun b => (liveVal now (kv.ocF b)).isSome))) r₂
            (by rw [eo₂])
        show r₁.action = r₂.action
        rw [hs₁, hs₂]
      | none =>
        exfalso
        have h0 := hoc.1
        simp at h0
    | none =>
      cases o₂ with
      | some r₂ =>
        exfalso
        have h0 := hoc.1
        simp at h0
      | none =>
        simp only []
        have hs : rr₁.action = rr₂.action := (hoc.2 rfl rfl).1
        have hnsps : rr₁.action ≠ "spam" := (hoc.2 rfl rfl).2
        by_cases hl₁ : 4 ≤ (ord₁ ((extractBands_6_3 sig).filter (fun b => (liveVal now (kv.lgF b)).isSome))).length
        · have hl₂ : 4 ≤ (ord₂ ((extractBands_6_3 sig).filter (fun b => (liveVal now (kv.lgF b)).isSome))).length := by
            rw [(h₂ ((extractBands_6_3 sig).filter (fun b => (liveVal now (kv.lgF b)).isSome))).length_eq]
            rw [(h₁ ((extractBands_6_3 sig).filter (fun b => (liveVal now (kv.lgF b)).isSome))).length_eq] at hl₁
            exact hl₁
          rw [if_pos hl₁, if_pos hl₂]
          have hklg : List.Perm (ord₁ ((extractBands_6_3 sig).filter (fun b => (liveVal now (kv.lgF b)).isSome))) (ord₂ ((extractBands_6_3 sig).filter (fun b => (liveVal now (kv.lgF b)).isSome))) := (h₁ ((extractBands_6_3 sig).filter (fun b => (liveVal now (kv.lgF b)).isSome))).trans (h₂ ((extractBands_6_3 sig).filter (fun b => (liveVal now (kv.lgF b)).isSome))).symm
          have hkv1 : (ord₁ ((extractBands_6_3 sig).filter (fun b => (liveVal now (kv.lgF b)).isSome))).foldl (fun k b => k.expireLgF now b E.cfg.localRetention) kv =
              (ord₂ ((extractBands_6_3 sig).filter (fun b => (liveVal now (kv.lgF b)).isSome))).foldl (fun k b => k.expireLgF now b E.cfg.localRetention) kv :=
            foldExpire_eq_of_perm now E.cfg.localRetention _ _ kv hklg
          rw [hkv1]
          have hlg := lgScan_congr E ord₁ ord₂ h₁ h₂ ((ord₂ ((extractBands_6_3 sig).filter (fun b => (liveVal now (kv.lgF b)).isSome))).foldl (fun k b => k.expireLgF now b E.cfg.localRetention) kv)
            now sig thr soft mt rr₁ rr₂ (ord₁ ((extractBands_6_3 sig).filter (fun b => (liveVal now (kv.lgF b)).isSome))) (ord₂ ((extractBands_6_3 sig).filter (fun b => (liveVal now (kv.lgF b)).isSome))) hklg hs hnsps
          by_cases hf : (lgScan E ord₁ ((ord₂ ((extractBands_6_3 sig).filter (fun b => (liveVal now (kv.lgF b)).isSome))).foldl (fun k b => k.expireLgF now b E.cfg.localRetention) kv) now sig thr soft mt rr₁ (ord₁ ((extractBands_6_3 sig).filter (fun b => (liveVal now (kv.lgF b)).isSome)))).1 = true
          · have hf₂ : (lgScan E ord₂ ((ord₂ ((extractBands_6_3 sig).filter (fun b => (liveVal now (kv.lgF b)).isSome))).foldl (fun k b => k.expireLgF now b E.cfg.localRetention) kv) now sig thr soft mt rr₂ (ord₂ ((extractBands_6_3 sig).filter (fun b => (liveVal now (kv.lgF b)).isSome)))).1 = true := by
              rw [← hlg.1]
              exact hf
            rw [if_pos hf, if_pos hf₂]
            exact ⟨rfl, hlg.2, rfl⟩
          · have hf₂ : ¬((lgScan E ord₂ ((ord₂ ((extractBands_6_3 sig).filter (fun b => (liveVal now (kv.lgF b)).isSome))).foldl (fun k b => k.expireLgF now b E.cfg.localRetention) kv) now sig thr soft mt rr₂ (ord₂ ((extractBands_6_3 sig).filter (fun b => (liveVal now (kv.lgF b)).isSome)))).1 = true) := by
              rw [← hlg.1]
              exact hf
            rw [if_neg hf, if_neg hf₂]
            exact ⟨rfl, hlg.2, rfl⟩
        · have hl₂ : ¬(4 ≤ (ord₂ ((extractBands_6_3 sig).filter (fun b => (liveVal now (kv.lgF b)).isSome))).length) := by
            rw [(h₂ ((extractBands_6_3 sig).filter (fun b => (liveVal now (kv.lgF b)).isSome))).length_eq]
            rw [(h₁ ((extractBands_6_3 sig).filter (fun b => (liveVal now (kv.lgF b)).isSome))).length_eq] at hl₁
            exact hl₁
          rw [if_neg hl₁, if_neg hl₂]
          by_cases hm : 4 ≤ (List.filter (fun b => (liveVal now (kv.miF b)).isSome)
              (extractBands_6_3 sig)).length
          · rw [if_pos hm, if_pos hm]
            by_cases hv : (callOracleDecision E kv now sig).1.action = "spam"
            · rw [if_pos hv, if_pos hv]
              exact ⟨rfl, rfl, rfl⟩
            · rw [if_neg hv, if_neg hv]
              exact ⟨rfl, hs, rfl⟩
          · rw [if_neg hm, if_neg hm]
            exact ⟨rfl, hs, rfl⟩
  · have hc₂ : ¬(4 ≤ (ord₂ ((extractBands_6_3 sig).filter (fun b => (liveVal now (kv.ocF b)).isSome))).length) := by
      rw [(h₂ ((extractBands_6_3 sig).filter (fun b => (liveVal now (kv.ocF b)).isSome))).length_eq]
      rw [(h₁ ((extractBands_6_3 sig).filter (fun b => (liveVal now (kv.ocF b)).isSome))).length_eq] at hc₁
      exact hc₁
    rw [if_neg hc₁, if_neg hc₂]
    simp only []
    have hs : res₁.action = res₂.action := hact
    have hnsps : res₁.action ≠ "spam" := hnsp
    by_cases hl₁ : 4 ≤ (ord₁ ((extractBands_6_3 sig).filter (fun b => (liveVal now (kv.lgF b)).isSome))).length
    · have hl₂ : 4 ≤ (ord₂ ((extractBands_6_3 sig).filter (fun b => (liveVal now (kv.lgF b)).isSome))).length := by
        rw [(h₂ ((extractBands_6_3 sig).filter (fun b => (liveVal now (kv.lgF b)).isSome))).length_eq]
        rw [(h₁ ((extractBands_6_3 sig).filter (fun b => (liveVal now (kv.lgF b)).isSome))).length_eq] at hl₁
        exact hl₁
      rw [if_pos hl₁, if_pos hl₂]
      have hklg : List.Perm (ord₁ ((extractBands_6_3 sig).filter (fun b => (liveVal now (kv.lgF b)).isSome))) (ord₂ ((extractBands_6_3 sig).filter (fun b => (liveVal now (kv.lgF b)).isSome))) := (h₁ ((extractBands_6_3 sig).filter (fun b => (liveVal now (kv.lgF b)).isSome))).trans (h₂ ((extractBands_6_3 sig).filter (fun b => (liveVal now (kv.lgF b)).isSome))).symm
      have hkv1 : (ord₁ ((extractBands_6_3 sig).filter (fun b => (liveVal now (kv.lgF b)).isSome))).foldl (fun k b => k.expireLgF now b E.cfg.localRetention) kv =
          (ord₂ ((extractBands_6_3 sig).filter (fun b => (liveVal now (kv.lgF b)).isSome))).foldl (fun k b => k.expireLgF now b E.cfg.localRetention) kv :=
        foldExpire_eq_of_perm now E.cfg.localRetention _ _ kv hklg
      rw [hkv1]
      have hlg := lgScan_congr E ord₁ ord₂ h₁ h₂ ((ord₂ ((extractBands_6_3 sig).filter (fun b => (liveVal now (kv.lgF b)).isSome))).foldl (fun k b => k.expireLgF now b E.cfg.localRetention) kv)
        now sig thr soft mt res₁ res₂ (ord₁ ((extractBands_6_3 sig).filter (fun b => (liveVal now (kv.lgF b)).isSome))) (ord₂ ((extractBands_6_3 sig).filter (fun b => (liveVal now (kv.lgF b)).isSome))) hklg hs hnsps
      by_cases hf : (lgScan E ord₁ ((ord₂ ((extractBands_6_3 sig).filter (fun b => (liveVal now (kv.lgF b)).isSome))).foldl (fun k b => k.expireLgF now b E.cfg.localRetention) kv) now sig thr soft mt res₁ (ord₁ ((extractBands_6_3 sig).filter (fun b => (liveVal now (kv.lgF b)).isSome)))).1 = true
      · have hf₂ : (lgScan E ord₂ ((ord₂ ((extractBands_6_3 sig).filter (fun b => (liveVal now (kv.lgF b)).isSome))).foldl (fun k b => k.expireLgF now b E.cfg.localRetention) kv) now sig thr soft mt res₂ (ord₂ ((extractBands_6_3 sig).filter (fun b => (liveVal now (kv.lgF b)).isSome)))).1 = true := by
          rw [← hlg.1]
          exact hf
        rw [if_pos hf, if_pos hf₂]
        exact ⟨rfl, hlg.2, rfl⟩
      · have hf₂ : ¬((lgScan E ord₂ ((ord₂ ((extractBands_6_3 sig).filter (fun b => (liveVal now (kv.lgF b)).isSome))).foldl (fun k b => k.expireLgF now b E.cfg.localRetention) kv) now sig thr soft mt res₂ (ord₂ ((extractBands_6_3 sig).filter (fun b => (liveVal now (kv.lgF b)).isSome)))).1 = true) := by
          rw [← hlg.1]
          exact hf
        rw [if_neg hf, if_neg hf₂]
        exact ⟨rfl, hlg.2, rfl⟩
    · have hl₂ : ¬(4 ≤ (ord₂ ((extractBands_6_3 sig).filter (fun b => (liveVal now (kv.lgF b)).isSome))).length) := by
        rw [(h₂ ((extractBands_6_3 sig).filter (fun b => (liveVal now (kv.lgF b)).isSome))).length_eq]
        rw [(h₁ ((extractBands_6_3 sig).filter (fun b => (liveVal now (kv.lgF b)).isSome))).length_eq] at hl₁
        exact hl₁
      rw [if_neg hl₁, if_neg hl₂]
      by_cases hm : 4 ≤ (List.filter (fun b => (liveVal now (kv.miF b)).isSome)
          (extractBands_6_3 sig)).length
      · rw [if_pos hm, if_pos hm]
        by_cases hv : (callOracleDecision E kv now sig).1.action = "spam"
        · rw [if_pos hv, if_pos hv]
          exact ⟨rfl, rfl, rfl⟩
        · rw [if_neg hv, if_neg hv]
          exact ⟨rfl, hs, rfl⟩
      · rw [if_neg hm, if_neg hm]
        exact ⟨rfl, hs, rfl⟩

theorem processSignature_congr (E : Sys) (ord₁ ord₂ : Reorder)
    (h₁ : ∀ l, List.Perm (ord₁ l) l) (h₂ : ∀ l, List.Perm (ord₂ l) l)
    (kv : KV) (now : Nat) (ts : TypedSignature) (res₁ res₂ : AnalysisResult)
    (hact : res₁.action = res₂.action) (hnsp : res₁.action ≠ "spam") :
    ((processSignature E ord₁ kv now ts res₁).isNext =
      (processSignature E ord₂ kv now ts res₂).isNext) ∧
    ((processSignature E ord₁ kv now ts res₁).res.action =
      (processSignature E ord₂ kv now ts res₂).res.action) ∧
    ((processSignature E ord₁ kv now ts res₁).kvOut =
      (processSignature E ord₂ kv now ts res₂).kvOut) := by
  unfold processSignature
  simp only []
  rcases hc : liveVal now (kv.oracleCache ts.hash) with _ | cres
  · exact processRest_congr E ord₁ ord₂ h₁ h₂ kv now ts.hash _ _ _ res₁ res₂ hact hnsp
  · simp only []
    by_cases hsp : cres.action = "spam"
    · rw [if_pos hsp, if_pos hsp]
      exact ⟨rfl, rfl, rfl⟩
    · rw [if_neg hsp, if_neg hsp]
      exact processRest_congr E ord₁ ord₂ h₁ h₂ kv now ts.hash _ _ _ res₁ res₂ hact hnsp

theorem analyzeLoop_congr (E : Sys) (ord₁ ord₂ : Reorder)
    (h₁ : ∀ l, List.Perm (ord₁ l) l) (h₂ : ∀ l, List.Perm (ord₂ l) l) (now : Nat) :
    ∀ (sigs : List TypedSignature) (res₁ res₂ : AnalysisResult) (kv : KV),
      res₁.action = res₂.action → res₁.action ≠ "spam" →
      ((analyzeLoop E ord₁ now sigs res₁ kv).1.action =
        (analyzeLoop E ord₂ now sigs res₂ kv).1.action) ∧
      ((analyzeLoop E ord₁ now sigs res₁ kv).2 =
        (analyzeLoop E ord₂ now sigs res₂ kv).2) := by
  intro sigs
  induction sigs with
  | nil =>
    intro res₁ res₂ kv hact _
    exact ⟨hact, rfl⟩
  | cons ts rest ih =>
    intro res₁ res₂ kv hact hnsp
    rw [analyzeLoop, analyzeLoop]
    rcases processSignature_congr E ord₁ ord₂ h₁ h₂ kv now ts res₁ res₂ hact hnsp
      with ⟨hn, ha, hk⟩
    rcases e₁ : processSignature E ord₁ kv now ts res₁ with ⟨r₁, k₁⟩ | ⟨r₁, k₁⟩ <;>
      rcases e₂ : processSignature E ord₂ kv now ts res₂ with ⟨r₂, k₂⟩ | ⟨r₂, k₂⟩ <;>
      rw [e₁, e₂] at hn ha hk
    · simp only []
      exact ⟨ha, hk⟩
    · simp [StepOut.isNext] at hn
    · simp [StepOut.isNext] at hn
    · simp only []
      have ha' : r₁.action = r₂.action := ha
      have hk' : k₁ = k₂ := hk
      subst hk'
      by_cases hb : r₁.action = "spam"
      · rw [if_pos hb, if_pos (ha' ▸ hb)]
        exact ⟨ha', rfl⟩
      · have hb₂ : ¬(r₂.action = "spam") := fun hc => hb (by rw [ha']; exact hc)
        rw [if_neg hb, if_neg hb₂]
        exact ih r₁ r₂ k₁ ha' hb

set_option maxHeartbeats 2000000 in
/-- Claim C9: analyzing the same parsed message against the same store is
deterministic despite Go's unordered map iteration: for any two map
iteration orders (modelled as arbitrary permutation-valued reorderings
applied at every map traversal) the analyze handler returns the same
`hashes` list — it is built from the signature extraction, which never
iterates a map — and the same top-level `action`, because every
order-sensitive read (candidate gathering, batch distances, the Layer-2/3
candidate scans, the band-TTL refresh fold) influences the action only
through order-independent facts. -/
theorem C9_analyze_deterministic (E : Sys) (ord₁ ord₂ : Reorder) (kv : KV) (now : Nat)
    (env : Envelope)
    (h₁ : ∀ l, List.Perm (ord₁ l) l) (h₂ : ∀ l, List.Perm (ord₂ l) l) :
    (analyzeHandler E ord₁ kv now env).1.hashes =
      (analyzeHandler E ord₂ kv now env).1.hashes ∧
    (analyzeHandler E ord₁ kv now env).1.action =
      (analyzeHandler E ord₂ kv now env).1.action := by
  unfold analyzeHandler
  simp only []
  by_cases hw : (isWhitelisted kv env.fromHeader).1 = true
  · rw [if_pos hw, if_pos hw]
    exact ⟨rfl, rfl⟩
  · rw [if_neg hw, if_neg hw]
    simp only []
    refine ⟨trivial, ?_⟩
    exact (analyzeLoop_congr E ord₁ ord₂ h₁ h₂ now (extractTypedSignatures E.lib E.cfg env)
      { action := "allow", proximityMatch := false } { action := "allow", proximityMatch := false }
      _ rfl (by show ("allow" : String) ≠ "spam"; decide)).1

theorem C9_analyze_deterministic_witness :
    (analyzeHandler sysA ordId emptyKV 0 envC4).1.hashes =
      (analyzeHandler sysA ordId emptyKV 0 envC4).1.hashes ∧
    (analyzeHandler sysA ordId emptyKV 0 envC4).1.action =
      (analyzeHandler sysA ordId emptyKV 0 envC4).1.action :=
  C9_analyze_deterministic sysA ordId ordId emptyKV 0 envC4
    (fun l => List.Perm.refl l) (fun l => List.Perm.refl l)

end Guardian
